import Mathlib

set_option maxHeartbeats 1000000
set_option maxRecDepth 20000

/-!
Verification of the slackmgr/types alert layer: a shallow embedding of the
Go source (alert.go, encryption.go, the webhook callback accessors and the
enum registries) together with proofs about the normalization pass `Clean`,
the validation pass, the `UniqueID` correlation hash and the payload cipher.

Modelling conventions:
  - Go strings are modelled as Lean `String` (a sequence of Unicode scalar
    values, i.e. runes); `len(s)` in Go is the UTF-8 byte length, modelled
    by `byteLen`, while `utf8.RuneCountInString` is `s.data.length`.
  - Go byte slices are `List Nat` with every element `< 256`.
  - Go `nil` slices/maps/pointers are `Option`/`Option`-element lists where
    the distinction is observable.
  - Fallible Go functions return `Except String` (the error message) or
    `Option String` (`some msg` = the returned error, `none` = nil error).
-/

namespace SM

/-- Go `unicode.IsSpace`, on the rune: the Unicode White_Space property as
tabulated in the Go `unicode` package. -/
def isGoSpace (c : Char) : Bool :=
  c.toNat = 9 || c.toNat = 10 || c.toNat = 11 || c.toNat = 12 || c.toNat = 13 ||
  c.toNat = 32 || c.toNat = 0x85 || c.toNat = 0xA0 || c.toNat = 0x1680 ||
  (0x2000 ≤ c.toNat && c.toNat ≤ 0x200A) || c.toNat = 0x2028 || c.toNat = 0x2029 ||
  c.toNat = 0x202F || c.toNat = 0x205F || c.toNat = 0x3000

/-- Go `strings.TrimSpace` on the rune list: drop leading and trailing
Unicode whitespace. -/
def trimL (l : List Char) : List Char :=
  ((l.dropWhile isGoSpace).reverse.dropWhile isGoSpace).reverse

/-- Go `strings.TrimSpace`. -/
def trimSpace (s : String) : String := ⟨trimL s.data⟩

/-- Go `strings.ReplaceAll(s, "\n", " ")` acts rune-by-rune because both the
pattern and the replacement are single ASCII runes. -/
def nlToSpace (c : Char) : Char := if c = '\n' then ' ' else c

/-- Go `strings.ReplaceAll(s, "\n", " ")`. -/
def replNewlines (s : String) : String := ⟨s.data.map nlToSpace⟩

/-- Go `strings.ToLower` / `strings.ToUpper` use the Unicode simple case
mapping; the embedding restricts it to the ASCII letters (the only case effect
on the material the claims exercise; the properties proved about it,
idempotence and whitespace-preservation, hold for the full simple mapping). -/
def lowerChar (c : Char) : Char :=
  if 65 ≤ c.toNat ∧ c.toNat ≤ 90 then Char.ofNat (c.toNat + 32) else c

/-- ASCII restriction of the Go `strings.ToUpper` character map. -/
def upperChar (c : Char) : Char :=
  if 97 ≤ c.toNat ∧ c.toNat ≤ 122 then Char.ofNat (c.toNat - 32) else c

/-- Go `strings.ToLower` (ASCII-restricted, see `lowerChar`). -/
def goToLower (s : String) : String := ⟨s.data.map lowerChar⟩

/-- Go `strings.ToUpper` (ASCII-restricted, see `upperChar`). -/
def goToUpper (s : String) : String := ⟨s.data.map upperChar⟩

/-- Go `strings.ReplaceAll(s, old, "")` for a pattern `pat`: scan left to
right, removing non-overlapping occurrences as they are found. Structural
recursion on a fuel bounded by the list length (each step consumes at least
one element, so the fuel never runs out when seeded with `l.length`). -/
def removeAllFuel (pat : List Char) : Nat → List Char → List Char
  | 0, l => l
  | _ + 1, [] => []
  | fuel + 1, c :: cs =>
    if 0 < pat.length ∧ pat.isPrefixOf (c :: cs) then
      removeAllFuel pat fuel ((c :: cs).drop pat.length)
    else
      c :: removeAllFuel pat fuel cs

/-- Go `strings.ReplaceAll(s, old, "")` on rune lists. -/
def removeAllL (pat l : List Char) : List Char := removeAllFuel pat l.length l

/-- Go `strings.ReplaceAll(s, ":status:", "")` (alert.go:312). -/
def removeStatus (s : String) : String := ⟨removeAllL ":status:".data s.data⟩

/-- Go `strings.Contains` on rune lists. -/
def containsSeq (pat : List Char) : List Char → Bool
  | [] => pat.isEmpty
  | c :: cs => pat.isPrefixOf (c :: cs) || containsSeq pat cs

/-- Go `strings.Contains s pat`. -/
def containsSub (s pat : String) : Bool := containsSeq pat.data s.data

/-- Go `truncateString` (alert.go:871): truncate to at most `maxRunes` runes,
by converting to the rune slice and slicing, so multi-byte characters are
never split. -/
def truncateString (s : String) (maxRunes : Nat) : String :=
  if s.data.length ≤ maxRunes then s else ⟨s.data.take maxRunes⟩

/-- UTF-8 encoding of one Unicode scalar value, as Go produces for a rune
stored in a string. -/
def utf8EncChar (n : Nat) : List Nat :=
  if n < 0x80 then [n]
  else if n < 0x800 then [0xC0 + n / 64, 0x80 + n % 64]
  else if n < 0x10000 then [0xE0 + n / 4096, 0x80 + n / 64 % 64, 0x80 + n % 64]
  else [0xF0 + n / 0x40000, 0x80 + n / 4096 % 64, 0x80 + n / 64 % 64, 0x80 + n % 64]

/-- Byte content of a Go string: the UTF-8 encoding of its runes. -/
def utf8Bytes (s : String) : List Nat := s.data.flatMap (fun c => utf8EncChar c.toNat)

/-- Go `len(s)` on a string: its UTF-8 byte length. -/
def byteLen (s : String) : Nat := (utf8Bytes s).length

theorem length_dropWhile_le' (p : α → Bool) (l : List α) :
    (l.dropWhile p).length ≤ l.length := by
  induction l with
  | nil => simp [List.dropWhile]
  | cons c cs ih =>
    by_cases h : p c <;> simp [List.dropWhile, h] <;> omega

theorem dropWhile_idem (p : α → Bool) (l : List α) :
    (l.dropWhile p).dropWhile p = l.dropWhile p := by
  induction l with
  | nil => simp
  | cons c cs ih =>
    by_cases h : p c <;> simp [List.dropWhile_cons, h, ih]

/-- A list is front-trimmed iff it is empty or its head fails the predicate;
such lists are fixed by `dropWhile`. -/
theorem dropWhile_eq_self_iff (p : α → Bool) (l : List α) :
    l.dropWhile p = l ↔ (l = [] ∨ ∃ c cs, l = c :: cs ∧ p c = false) := by
  cases l with
  | nil => simp
  | cons c cs =>
    constructor
    · intro h
      by_cases hp : p c
      · exfalso
        rw [List.dropWhile_cons, if_pos hp] at h
        have := length_dropWhile_le' p cs
        have := congrArg List.length h
        simp at this
        omega
      · exact Or.inr ⟨c, cs, rfl, by simpa using hp⟩
    · rintro (h | ⟨d, ds, h, hd⟩)
      · simp at h
      · cases h
        rw [List.dropWhile_cons, if_neg (by simp [hd])]

/-- Front-trimmedness is inherited by prefixes. -/
theorem dropWhile_eq_self_of_prefix (p : α → Bool) {l m : List α}
    (hl : l.dropWhile p = l) (hm : m <+: l) : m.dropWhile p = m := by
  rcases (dropWhile_eq_self_iff p l).1 hl with h | ⟨c, cs, rfl, hc⟩
  · subst h
    have := List.prefix_nil.1 hm
    simp [this]
  · cases m with
    | nil => simp
    | cons d ds =>
      have hd : d = c := by
        rcases hm with ⟨t, ht⟩
        have := congrArg (List.head? ·) ht
        simpa using this
      subst hd
      exact (dropWhile_eq_self_iff p _).2 (Or.inr ⟨d, ds, rfl, hc⟩)

/-- Trimming from the back only, as a helper for `trimL` lemmas. -/
def backTrim (p : α → Bool) (l : List α) : List α :=
  ((l.reverse).dropWhile p).reverse

theorem backTrim_idem (p : α → Bool) (l : List α) :
    backTrim p (backTrim p l) = backTrim p l := by
  simp [backTrim, dropWhile_idem]

theorem trimL_eq_backTrim_dropWhile (l : List Char) :
    trimL l = backTrim isGoSpace (l.dropWhile isGoSpace) := by
  simp [trimL, backTrim]

/-- The back-trim of a front-trimmed list stays front-trimmed. -/
theorem dropWhile_backTrim (p : α → Bool) (l : List α) (h : l.dropWhile p = l) :
    (backTrim p l).dropWhile p = backTrim p l := by
  apply dropWhile_eq_self_of_prefix p h
  rw [backTrim, ← List.reverse_suffix]
  simp only [List.reverse_reverse]
  exact List.dropWhile_suffix p

theorem trimL_idem (l : List Char) : trimL (trimL l) = trimL l := by
  rw [trimL_eq_backTrim_dropWhile l, trimL_eq_backTrim_dropWhile]
  rw [dropWhile_backTrim _ _ (dropWhile_idem _ l), backTrim_idem]

theorem trimSpace_idem (s : String) : trimSpace (trimSpace s) = trimSpace s := by
  simp [trimSpace, trimL_idem]

/-- Dynamically typed value stored in a Go `map[string]any` (`Metadata`,
webhook `Payload`, callback `Payload`); restricted to the scalar JSON types
the claims exercise. -/
inductive GoValue where
  | null : GoValue
  | str : String → GoValue
  | int : Int → GoValue
  | bool : Bool → GoValue
deriving DecidableEq, Repr

/-- Alert field (alert.go:202). -/
structure Field where
  Title : String
  Value : String
deriving DecidableEq, Repr

/-- Escalation point (alert.go:211). -/
structure Escalation where
  Severity : String
  DelaySeconds : Int
  SlackMentions : List String
  MoveToChannel : String
deriving DecidableEq, Repr

/-- Webhook plain-text input (alert.go:239). -/
structure WebhookPlainTextInput where
  ID : String
  Description : String
  MinLength : Int
  MaxLength : Int
  Multiline : Bool
  InitialValue : String
deriving DecidableEq, Repr

/-- Webhook checkbox option (alert.go:254). -/
structure WebhookCheckboxOption where
  Value : String
  Text : String
  Selected : Bool
deriving DecidableEq, Repr

/-- Webhook checkbox input (alert.go:248); the `Options` slice may hold
Go nil pointers, modelled as `none`. -/
structure WebhookCheckboxInput where
  ID : String
  Label : String
  Options : List (Option WebhookCheckboxOption)
deriving DecidableEq, Repr

/-- Interactive webhook button (alert.go:226). The string-typed Go enums
`WebhookButtonStyle`, `WebhookAccessLevel`, `WebhookDisplayMode` are plain
strings; a Go nil `Payload` map is `none`. -/
structure Webhook where
  ID : String
  URL : String
  ConfirmationText : String
  ButtonText : String
  ButtonStyle : String
  AccessLevel : String
  DisplayMode : String
  Payload : Option (List (String × GoValue))
  PlainTextInput : List (Option WebhookPlainTextInput)
  CheckboxInput : List (Option WebhookCheckboxInput)
deriving DecidableEq, Repr

/-- The Alert aggregate (alert.go:78): field `Type` is named `Type'` because
`Type` is a Lean keyword; `Timestamp` is nanoseconds since the Unix epoch
(the content of a Go `time.Time`). -/
structure Alert where
  Timestamp : Int
  CorrelationID : String
  Type' : String
  Header : String
  HeaderWhenResolved : String
  Text : String
  TextWhenResolved : String
  FallbackText : String
  Author : String
  Host : String
  Footer : String
  Link : String
  IssueFollowUpEnabled : Bool
  AutoResolveSeconds : Int
  AutoResolveAsInconclusive : Bool
  Severity : String
  SlackChannelID : String
  RouteKey : String
  Username : String
  IconEmoji : String
  Fields : List (Option Field)
  NotificationDelaySeconds : Int
  ArchivingDelaySeconds : Int
  Escalation : List (Option Escalation)
  IgnoreIfTextContains : List String
  FailOnRateLimitError : Bool
  Webhooks : List (Option Webhook)
  Metadata : List (String × GoValue)
deriving DecidableEq, Repr

/-- Constants from alert.go:28-74 that `Clean` uses (rune-count limits). -/
def MaxTimestampAge : Int := 7 * 24 * 3600 * 1000000000

def MaxHeaderLength : Nat := 130

def MaxFallbackTextLength : Nat := 150

def MaxTextLength : Nat := 10000

def MaxAuthorLength : Nat := 100

def MaxHostLength : Nat := 100

def MaxFooterLength : Nat := 300

def MaxUsernameLength : Nat := 100

def MaxFieldTitleLength : Nat := 30

def MaxFieldValueLength : Nat := 200

def MaxCorrelationIDLength : Nat := 500

/-- Go `utf8.RuneCountInString`. -/
def runeCount (s : String) : Nat := s.data.length

/-- Go `shortenAlertTextIfNeeded` (alert.go:856). -/
def shortenAlertTextIfNeeded (text : String) : String :=
  if runeCount text ≤ MaxTextLength then text
  else if "```".data.isSuffixOf text.data then
    trimSpace (truncateString text (MaxTextLength - 6)) ++ "...```"
  else
    trimSpace (truncateString text (MaxTextLength - 3)) ++ "..."

/-- The truncate-and-ellipsize pattern repeated throughout Clean (e.g.
alert.go:341-343): when over `maxLen` runes, truncate to `maxLen - 3` runes,
trim, and append the three-dot ellipsis. -/
def truncEllipsis (maxLen : Nat) (s : String) : String :=
  if runeCount s > maxLen then trimSpace (truncateString s (maxLen - 3)) ++ "..." else s

/-- Normalization of the single-line fields Header and HeaderWhenResolved
(alert.go:308-309 and 341-347): trim, collapse newlines to spaces, truncate. -/
def headerNorm (s : String) : String :=
  truncEllipsis MaxHeaderLength (replNewlines (trimSpace s))

/-- Normalization of context fields (Author, Host, Username, Footer, field
titles and values): trim then truncate with ellipsis. -/
def contextNorm (maxLen : Nat) (s : String) : String :=
  truncEllipsis maxLen (trimSpace s)

/-- Normalization of FallbackText (alert.go:312-313 and 323-325): strip
`:status:` tokens, trim, collapse newlines, and truncate without the extra
trim pass used for the other fields. -/
def fallbackNorm (s : String) : String :=
  let f0 := replNewlines (trimSpace (removeStatus s))
  if runeCount f0 > MaxFallbackTextLength then
    truncateString f0 (MaxFallbackTextLength - 3) ++ "..." else f0

/-- Normalization of Severity (alert.go:321 and 327-329): lowercase, trim,
then map the empty and legacy `critical` values to `error`. -/
def sevNorm (s : String) : String :=
  let x := goToLower (trimSpace s)
  if x = "" ∨ x = "critical" then "error" else x

/-- Normalization of Text and TextWhenResolved (alert.go:310-311, 349-350). -/
def textNorm (s : String) : String := shortenAlertTextIfNeeded (trimSpace s)

/-- Body of the `for _, field := range a.Fields` loop of Clean
(alert.go:368-383); a nil element is skipped. -/
def cleanFieldElem (f : Option Field) : Option Field :=
  match f with
  | none => none
  | some field =>
    some ⟨contextNorm MaxFieldTitleLength field.Title,
          contextNorm MaxFieldValueLength field.Value⟩

/-- Body of the `for _, input := range hook.PlainTextInput` loop of Clean
(alert.go:399-407). -/
def cleanPlainInputElem (i : Option WebhookPlainTextInput) : Option WebhookPlainTextInput :=
  match i with
  | none => none
  | some input => some { input with
      ID := trimSpace input.ID,
      Description := trimSpace input.Description,
      InitialValue := trimSpace input.InitialValue }

/-- Body of the `for _, input := range hook.CheckboxInput` loop of Clean
(alert.go:409-416). -/
def cleanCheckboxInputElem (i : Option WebhookCheckboxInput) : Option WebhookCheckboxInput :=
  match i with
  | none => none
  | some input => some { input with
      ID := trimSpace input.ID,
      Label := trimSpace input.Label }

/-- Body of the `for _, hook := range a.Webhooks` loop of Clean
(alert.go:385-417). -/
def cleanWebhookElem (w : Option Webhook) : Option Webhook :=
  match w with
  | none => none
  | some hook => some { hook with
      ID := trimSpace hook.ID,
      ButtonText := trimSpace hook.ButtonText,
      URL := trimSpace hook.URL,
      ConfirmationText := trimSpace hook.ConfirmationText,
      ButtonStyle := if hook.ButtonStyle = "default" then "" else hook.ButtonStyle,
      PlainTextInput := hook.PlainTextInput.map cleanPlainInputElem,
      CheckboxInput := hook.CheckboxInput.map cleanCheckboxInputElem }

/-- Body of the `for _, e := range a.Escalation` loop of Clean
(alert.go:430-441). -/
def cleanEscElem (e : Option Escalation) : Option Escalation :=
  match e with
  | none => none
  | some esc => some { esc with
      Severity := goToLower (trimSpace esc.Severity),
      MoveToChannel := goToUpper (trimSpace esc.MoveToChannel),
      SlackMentions := esc.SlackMentions.map trimSpace }

/-- Total preorder corresponding to the `sort.Slice` comparator of Clean
(alert.go:420-428): nil entries sort first, then ascending `DelaySeconds`.
`escLE x y` is the negation of `less y x` for the Go comparator (for the
degenerate nil/nil pair, where the Go comparator is not a strict order, the
model takes `true`); `sort.Slice` is modelled as an insertion sort realizing
this ordering, which is also what Go's pdqsort runs for slices shorter than
12 elements. -/
def escLE (x y : Option Escalation) : Bool :=
  match x, y with
  | none, _ => true
  | some _, none => false
  | some a, some b => a.DelaySeconds ≤ b.DelaySeconds

/-- The escalation sort order as a decidable relation. -/
def escRel (x y : Option Escalation) : Prop := escLE x y = true

instance : DecidableRel escRel := fun x y => instDecidableEqBool (escLE x y) true

/-- Go `Alert.Clean` (alert.go:300-443), with the two `time` calls
(`time.Since` and `time.Now`) supplied by the single parameter `now`,
nanoseconds since the epoch. -/
def clean (now : Int) (a : Alert) : Alert :=
  { a with
    Timestamp := if now - a.Timestamp > MaxTimestampAge then now else a.Timestamp,
    Type' := goToLower (trimSpace a.Type'),
    SlackChannelID := goToUpper (trimSpace a.SlackChannelID),
    RouteKey := goToLower (trimSpace a.RouteKey),
    Header := headerNorm a.Header,
    HeaderWhenResolved := headerNorm a.HeaderWhenResolved,
    Text := textNorm a.Text,
    TextWhenResolved := textNorm a.TextWhenResolved,
    FallbackText := fallbackNorm a.FallbackText,
    CorrelationID := trimSpace a.CorrelationID,
    Username := contextNorm MaxUsernameLength a.Username,
    Author := contextNorm MaxAuthorLength a.Author,
    Host := contextNorm MaxHostLength a.Host,
    Link := trimSpace a.Link,
    Footer := contextNorm MaxFooterLength a.Footer,
    IconEmoji := goToLower (trimSpace a.IconEmoji),
    Severity := sevNorm a.Severity,
    ArchivingDelaySeconds := if a.ArchivingDelaySeconds < 0 then 0 else a.ArchivingDelaySeconds,
    NotificationDelaySeconds := if a.NotificationDelaySeconds < 0 then 0 else a.NotificationDelaySeconds,
    Fields := a.Fields.map cleanFieldElem,
    Webhooks := a.Webhooks.map cleanWebhookElem,
    Escalation := if a.Escalation.length > 0 then
        (List.insertionSort escRel a.Escalation).map cleanEscElem else a.Escalation }

theorem toNat_ofNat_of_lt {n : Nat} (h : n < 0xD800) : (Char.ofNat n).toNat = n := by
  unfold Char.ofNat
  rw [dif_pos (Or.inl h)]
  rfl

theorem isGoSpace_nlToSpace (c : Char) : isGoSpace (nlToSpace c) = isGoSpace c := by
  by_cases h : c = '\n'
  · subst h; decide
  · simp [nlToSpace, h]

theorem nlToSpace_idem (c : Char) : nlToSpace (nlToSpace c) = nlToSpace c := by
  by_cases h : c = '\n'
  · subst h; decide
  · simp [nlToSpace, h]

theorem toNat_lowerChar (c : Char) :
    (lowerChar c).toNat = if 65 ≤ c.toNat ∧ c.toNat ≤ 90 then c.toNat + 32 else c.toNat := by
  by_cases h : 65 ≤ c.toNat ∧ c.toNat ≤ 90
  · simp only [lowerChar, if_pos h]
    exact toNat_ofNat_of_lt (by omega)
  · simp [lowerChar, h]

theorem toNat_upperChar (c : Char) :
    (upperChar c).toNat = if 97 ≤ c.toNat ∧ c.toNat ≤ 122 then c.toNat - 32 else c.toNat := by
  by_cases h : 97 ≤ c.toNat ∧ c.toNat ≤ 122
  · simp only [upperChar, if_pos h]
    exact toNat_ofNat_of_lt (by omega)
  · simp [upperChar, h]

theorem isGoSpace_eq_of_toNat {c d : Char} (h : c.toNat = d.toNat) :
    isGoSpace c = isGoSpace d := by
  simp only [isGoSpace, h]

theorem isGoSpace_iff (c : Char) : isGoSpace c = true ↔
    (c.toNat = 9 ∨ c.toNat = 10 ∨ c.toNat = 11 ∨ c.toNat = 12 ∨ c.toNat = 13 ∨
     c.toNat = 32 ∨ c.toNat = 0x85 ∨ c.toNat = 0xA0 ∨ c.toNat = 0x1680 ∨
     (0x2000 ≤ c.toNat ∧ c.toNat ≤ 0x200A) ∨ c.toNat = 0x2028 ∨ c.toNat = 0x2029 ∨
     c.toNat = 0x202F ∨ c.toNat = 0x205F ∨ c.toNat = 0x3000) := by
  simp [isGoSpace, or_assoc]

theorem isGoSpace_false_of (c : Char) (h1 : 33 ≤ c.toNat) (h2 : c.toNat ≤ 132) :
    isGoSpace c = false := by
  rw [Bool.eq_false_iff, Ne, isGoSpace_iff]
  omega

theorem isGoSpace_lowerChar (c : Char) : isGoSpace (lowerChar c) = isGoSpace c := by
  have hn := toNat_lowerChar c
  by_cases h : 65 ≤ c.toNat ∧ c.toNat ≤ 90
  · rw [if_pos h] at hn
    rw [isGoSpace_false_of (lowerChar c) (by omega) (by omega),
        isGoSpace_false_of c (by omega) (by omega)]
  · rw [if_neg h] at hn
    exact isGoSpace_eq_of_toNat hn

theorem isGoSpace_upperChar (c : Char) : isGoSpace (upperChar c) = isGoSpace c := by
  have hn := toNat_upperChar c
  by_cases h : 97 ≤ c.toNat ∧ c.toNat ≤ 122
  · rw [if_pos h] at hn
    rw [isGoSpace_false_of (upperChar c) (by omega) (by omega),
        isGoSpace_false_of c (by omega) (by omega)]
  · rw [if_neg h] at hn
    exact isGoSpace_eq_of_toNat hn

theorem lowerChar_eq_self_of_not (c : Char) (h : ¬(65 ≤ c.toNat ∧ c.toNat ≤ 90)) :
    lowerChar c = c := by
  simp [lowerChar, h]

theorem upperChar_eq_self_of_not (c : Char) (h : ¬(97 ≤ c.toNat ∧ c.toNat ≤ 122)) :
    upperChar c = c := by
  simp [upperChar, h]

theorem lowerChar_idem (c : Char) : lowerChar (lowerChar c) = lowerChar c := by
  have hn := toNat_lowerChar c
  apply lowerChar_eq_self_of_not
  by_cases h : 65 ≤ c.toNat ∧ c.toNat ≤ 90
  · rw [if_pos h] at hn
    omega
  · rw [if_neg h] at hn
    omega

theorem upperChar_idem (c : Char) : upperChar (upperChar c) = upperChar c := by
  have hn := toNat_upperChar c
  apply upperChar_eq_self_of_not
  by_cases h : 97 ≤ c.toNat ∧ c.toNat ≤ 122
  · rw [if_pos h] at hn
    omega
  · rw [if_neg h] at hn
    omega

theorem trimL_map_comm (g : Char → Char) (hg : ∀ c, isGoSpace (g c) = isGoSpace c)
    (l : List Char) : trimL (l.map g) = (trimL l).map g := by
  have hfun : (isGoSpace ∘ g) = isGoSpace := funext hg
  simp only [trimL, List.dropWhile_map, hfun, ← List.map_reverse]

theorem trim_repl_comm (s : String) :
    trimSpace (replNewlines s) = replNewlines (trimSpace s) := by
  simp only [trimSpace, replNewlines, trimL_map_comm nlToSpace isGoSpace_nlToSpace]

theorem trim_lower_comm (s : String) :
    trimSpace (goToLower s) = goToLower (trimSpace s) := by
  simp only [trimSpace, goToLower, trimL_map_comm lowerChar isGoSpace_lowerChar]

theorem trim_upper_comm (s : String) :
    trimSpace (goToUpper s) = goToUpper (trimSpace s) := by
  simp only [trimSpace, goToUpper, trimL_map_comm upperChar isGoSpace_upperChar]

theorem replNewlines_idem (s : String) :
    replNewlines (replNewlines s) = replNewlines s := by
  simp only [replNewlines, List.map_map]
  exact congrArg _ (List.map_congr_left (fun c _ => nlToSpace_idem c))

theorem goToLower_idem (s : String) : goToLower (goToLower s) = goToLower s := by
  simp only [goToLower, List.map_map]
  exact congrArg _ (List.map_congr_left (fun c _ => lowerChar_idem c))

theorem goToUpper_idem (s : String) : goToUpper (goToUpper s) = goToUpper s := by
  simp only [goToUpper, List.map_map]
  exact congrArg _ (List.map_congr_left (fun c _ => upperChar_idem c))

/-- The composite `strings.ToLower(strings.TrimSpace(s))` is idempotent. -/
theorem lowtrim_idem (s : String) :
    goToLower (trimSpace (goToLower (trimSpace s))) = goToLower (trimSpace s) := by
  rw [trim_lower_comm, trimSpace_idem, goToLower_idem]

theorem uptrim_idem (s : String) :
    goToUpper (trimSpace (goToUpper (trimSpace s))) = goToUpper (trimSpace s) := by
  rw [trim_upper_comm, trimSpace_idem, goToUpper_idem]

theorem length_trimL_le (l : List Char) : (trimL l).length ≤ l.length := by
  simp only [trimL, List.length_reverse]
  calc ((l.dropWhile isGoSpace).reverse.dropWhile isGoSpace).length
      ≤ (l.dropWhile isGoSpace).reverse.length := length_dropWhile_le' _ _
    _ = (l.dropWhile isGoSpace).length := List.length_reverse _
    _ ≤ l.length := length_dropWhile_le' _ _

/-- A list fixed by `trimL` is fixed by the front `dropWhile` alone. -/
theorem dropWhile_eq_self_of_trimL {l : List Char} (h : trimL l = l) :
    l.dropWhile isGoSpace = l := by
  have hlen : (trimL l).length ≤ (l.dropWhile isGoSpace).length := by
    simp only [trimL, List.length_reverse]
    calc ((l.dropWhile isGoSpace).reverse.dropWhile isGoSpace).length
        ≤ (l.dropWhile isGoSpace).reverse.length := length_dropWhile_le' _ _
      _ = (l.dropWhile isGoSpace).length := List.length_reverse _
  have h2 : (l.dropWhile isGoSpace).length = l.length := by
    have := length_dropWhile_le' isGoSpace l
    have := congrArg List.length h
    omega
  exact (List.dropWhile_suffix isGoSpace).eq_of_length h2

/-- A list whose head fails the predicate is fixed by `dropWhile`, whatever
comes after the head. -/
theorem dropWhile_eq_self_of_head {p : α → Bool} {l : List α}
    (h : ∀ c, l.head? = some c → p c = false) : l.dropWhile p = l := by
  cases l with
  | nil => simp
  | cons c cs =>
    exact (dropWhile_eq_self_iff p _).2 (Or.inr ⟨c, cs, rfl, h c (by simp)⟩)

/-- Appending a nonempty string that starts and ends with non-whitespace to a
string fixed by the front trim yields a fully trimmed string. -/
theorem trimL_append_solid {A B : List Char}
    (ha : A.dropWhile isGoSpace = A) (hb : B ≠ [])
    (hh : ∀ c, B.head? = some c → isGoSpace c = false)
    (hl : ∀ c, B.getLast? = some c → isGoSpace c = false) :
    trimL (A ++ B) = A ++ B := by
  have hfront : (A ++ B).dropWhile isGoSpace = A ++ B := by
    apply dropWhile_eq_self_of_head
    intro c hc
    rw [List.head?_append] at hc
    cases hA : A with
    | nil =>
      apply hh
      rw [hA] at hc
      simpa using hc
    | cons d ds =>
      rcases (dropWhile_eq_self_iff _ A).1 ha with h' | ⟨e, es, he, hep⟩
      · rw [h'] at hA
        simp at hA
      · rw [hA] at he hc
        have hde : d = e := by injection he
        have : c = d := by
          simp [Option.or] at hc
          exact hc.symm
        rw [this, hde]
        exact hep
  have hback : ((A ++ B).reverse).dropWhile isGoSpace = (A ++ B).reverse := by
    apply dropWhile_eq_self_of_head
    intro c hc
    rw [List.head?_reverse] at hc
    apply hl
    rw [List.getLast?_append] at hc
    cases hB : B.getLast? with
    | none =>
      exfalso
      exact hb (List.getLast?_eq_none_iff.1 hB)
    | some d =>
      rw [hB] at hc
      simp [Option.or] at hc
      exact congrArg some hc
  rw [trimL, hfront, hback, List.reverse_reverse]

theorem data_append (s t : String) : (s ++ t).data = s.data ++ t.data :=
  String.data_append s t

theorem truncateString_data (s : String) (n : Nat) :
    (truncateString s n).data = s.data.take n := by
  unfold truncateString
  split
  · rename_i h
    exact (List.take_of_length_le h).symm
  · rfl

theorem mem_trimL {c : Char} {l : List Char} (h : c ∈ trimL l) : c ∈ l := by
  unfold trimL at h
  rw [List.mem_reverse] at h
  have h2 := (List.dropWhile_sublist isGoSpace).mem h
  rw [List.mem_reverse] at h2
  exact (List.dropWhile_sublist isGoSpace).mem h2

theorem mem_trimSpace {c : Char} {s : String} (h : c ∈ (trimSpace s).data) : c ∈ s.data :=
  mem_trimL h

theorem noNl_replNewlines (s : String) : '\n' ∉ (replNewlines s).data := by
  intro h
  simp only [replNewlines] at h
  rcases List.mem_map.1 h with ⟨d, _, hd⟩
  by_cases hdn : d = '\n'
  · rw [hdn] at hd
    exact absurd hd (by decide)
  · rw [nlToSpace, if_neg hdn] at hd
    exact hdn hd

theorem replNewlines_eq_self {s : String} (h : '\n' ∉ s.data) :
    replNewlines s = s := by
  apply String.ext
  simp only [replNewlines]
  have : s.data.map nlToSpace = s.data.map id := by
    apply List.map_congr_left
    intro c hc
    have : c ≠ '\n' := fun hh => h (hh ▸ hc)
    simp [nlToSpace, this]
  rw [this, List.map_id]

/-- Generic trimmedness of `y ++ t` for a front-trimmed `y` and a solid
(nonempty, whitespace-free at both ends) tail `t`. -/
theorem trim_append_tail_solid (y t : String)
    (hy : y.data.dropWhile isGoSpace = y.data)
    (ht : t.data ≠ [])
    (hth : ∀ c, t.data.head? = some c → isGoSpace c = false)
    (htl : ∀ c, t.data.getLast? = some c → isGoSpace c = false) :
    trimSpace (y ++ t) = y ++ t := by
  apply String.ext
  rw [trimSpace, data_append]
  exact trimL_append_solid hy ht hth htl

theorem front_trimmed_of_trimmed {s : String} (h : trimSpace s = s) :
    s.data.dropWhile isGoSpace = s.data := by
  apply dropWhile_eq_self_of_trimL
  have := congrArg String.data h
  simpa [trimSpace] using this

theorem trimmed_trimSpace (s : String) : trimSpace (trimSpace s) = trimSpace s :=
  trimSpace_idem s

theorem runeCount_append (s t : String) :
    runeCount (s ++ t) = runeCount s + runeCount t := by
  simp [runeCount, data_append]

theorem runeCount_trimSpace_le (s : String) : runeCount (trimSpace s) ≤ runeCount s :=
  length_trimL_le s.data

theorem truncEllipsis_noop {m : Nat} {s : String} (h : runeCount s ≤ m) :
    truncEllipsis m s = s := by
  unfold truncEllipsis
  rw [if_neg (by omega)]

theorem runeCount_truncEllipsis_le (m : Nat) (h3 : 3 ≤ m) (s : String) :
    runeCount (truncEllipsis m s) ≤ m := by
  unfold truncEllipsis
  split
  · rw [runeCount_append]
    have h1 : runeCount (trimSpace (truncateString s (m - 3))) ≤ m - 3 := by
      calc runeCount (trimSpace (truncateString s (m - 3)))
          ≤ runeCount (truncateString s (m - 3)) := runeCount_trimSpace_le _
        _ ≤ m - 3 := by
            rw [runeCount, truncateString_data]
            exact List.length_take_le _ _
    have h2 : runeCount ("..." : String) = 3 := by decide
    omega
  · omega

theorem trimSpace_truncEllipsis {m : Nat} {s : String} (hs : trimSpace s = s) :
    trimSpace (truncEllipsis m s) = truncEllipsis m s := by
  unfold truncEllipsis
  split
  · apply trim_append_tail_solid
    · exact front_trimmed_of_trimmed (trimSpace_idem _)
    · decide
    · decide
    · decide
  · exact hs

theorem noNl_truncEllipsis {m : Nat} {s : String} (h : '\n' ∉ s.data) :
    '\n' ∉ (truncEllipsis m s).data := by
  unfold truncEllipsis
  split
  · rw [data_append]
    intro hmem
    rcases List.mem_append.1 hmem with h1 | h1
    · have := mem_trimSpace h1
      rw [truncateString_data] at this
      exact h ((List.take_sublist _ _).mem this)
    · exact absurd h1 (by decide)
  · exact h

theorem truncEllipsis_stable (m : Nat) (h3 : 3 ≤ m) (s : String) :
    truncEllipsis m (truncEllipsis m s) = truncEllipsis m s :=
  truncEllipsis_noop (runeCount_truncEllipsis_le m h3 s)

theorem contextNorm_idem (m : Nat) (h3 : 3 ≤ m) (s : String) :
    contextNorm m (contextNorm m s) = contextNorm m s := by
  unfold contextNorm
  rw [trimSpace_truncEllipsis (trimSpace_idem s), truncEllipsis_stable m h3]

theorem headerNorm_idem (s : String) : headerNorm (headerNorm s) = headerNorm s := by
  have h1 : trimSpace (replNewlines (trimSpace s)) = replNewlines (trimSpace s) := by
    rw [trim_repl_comm, trimSpace_idem]
  have htrim : trimSpace (headerNorm s) = headerNorm s := trimSpace_truncEllipsis h1
  have hnl : '\n' ∉ (headerNorm s).data :=
    noNl_truncEllipsis (noNl_replNewlines (trimSpace s))
  have hrepl : replNewlines (headerNorm s) = headerNorm s := replNewlines_eq_self hnl
  show truncEllipsis MaxHeaderLength (replNewlines (trimSpace (headerNorm s))) = headerNorm s
  rw [htrim, hrepl]
  exact truncEllipsis_stable MaxHeaderLength (by norm_num [MaxHeaderLength]) _

theorem shorten_noop {t : String} (h : runeCount t ≤ MaxTextLength) :
    shortenAlertTextIfNeeded t = t := by
  unfold shortenAlertTextIfNeeded
  rw [if_pos h]

theorem runeCount_shorten_le (t : String) :
    runeCount (shortenAlertTextIfNeeded t) ≤ MaxTextLength := by
  unfold shortenAlertTextIfNeeded
  split
  · omega
  split
  · rw [runeCount_append]
    have h1 : runeCount (trimSpace (truncateString t (MaxTextLength - 6))) ≤ MaxTextLength - 6 := by
      calc runeCount (trimSpace (truncateString t (MaxTextLength - 6)))
          ≤ runeCount (truncateString t (MaxTextLength - 6)) := runeCount_trimSpace_le _
        _ ≤ MaxTextLength - 6 := by
            rw [runeCount, truncateString_data]
            exact List.length_take_le _ _
    have h2 : runeCount ("...```" : String) = 6 := by decide
    simp only [MaxTextLength] at *
    omega
  · rw [runeCount_append]
    have h1 : runeCount (trimSpace (truncateString t (MaxTextLength - 3))) ≤ MaxTextLength - 3 := by
      calc runeCount (trimSpace (truncateString t (MaxTextLength - 3)))
          ≤ runeCount (truncateString t (MaxTextLength - 3)) := runeCount_trimSpace_le _
        _ ≤ MaxTextLength - 3 := by
            rw [runeCount, truncateString_data]
            exact List.length_take_le _ _
    have h2 : runeCount ("..." : String) = 3 := by decide
    simp only [MaxTextLength] at *
    omega

theorem trimSpace_shorten {t : String} (ht : trimSpace t = t) :
    trimSpace (shortenAlertTextIfNeeded t) = shortenAlertTextIfNeeded t := by
  unfold shortenAlertTextIfNeeded
  split
  · exact ht
  split
  · apply trim_append_tail_solid
    · exact front_trimmed_of_trimmed (trimSpace_idem _)
    · decide
    · decide
    · decide
  · apply trim_append_tail_solid
    · exact front_trimmed_of_trimmed (trimSpace_idem _)
    · decide
    · decide
    · decide

theorem textNorm_idem (s : String) : textNorm (textNorm s) = textNorm s := by
  show shortenAlertTextIfNeeded (trimSpace (textNorm s)) = textNorm s
  rw [show trimSpace (textNorm s) = textNorm s from trimSpace_shorten (trimSpace_idem s)]
  exact shorten_noop (runeCount_shorten_le _)

theorem removeAllFuel_eq_self {pat : List Char} (fuel : Nat) {l : List Char}
    (h : containsSeq pat l = false) : removeAllFuel pat fuel l = l := by
  induction fuel generalizing l with
  | zero => rw [removeAllFuel]
  | succ fuel ih =>
    cases l with
    | nil => rw [removeAllFuel]
    | cons c cs =>
      rw [containsSeq, Bool.or_eq_false_iff] at h
      rw [removeAllFuel, if_neg]
      · rw [ih h.2]
      · intro hcontra
        rw [h.1] at hcontra
        exact Bool.false_ne_true hcontra.2

theorem removeAllL_eq_self {pat l : List Char} (h : containsSeq pat l = false) :
    removeAllL pat l = l :=
  removeAllFuel_eq_self l.length h

theorem removeStatus_eq_self {s : String} (h : containsSub s ":status:" = false) :
    removeStatus s = s := by
  apply String.ext
  exact removeAllL_eq_self h

theorem noNl_take {s : List Char} (h : '\n' ∉ s) (n : Nat) : '\n' ∉ s.take n :=
  fun hm => h ((List.take_sublist _ _).mem hm)

theorem fallbackNorm_trimmed (s : String) :
    trimSpace (fallbackNorm s) = fallbackNorm s := by
  have h0 : trimSpace (replNewlines (trimSpace (removeStatus s)))
      = replNewlines (trimSpace (removeStatus s)) := by
    rw [trim_repl_comm, trimSpace_idem]
  unfold fallbackNorm
  dsimp only
  split
  · apply trim_append_tail_solid
    · have hfront := front_trimmed_of_trimmed h0
      apply dropWhile_eq_self_of_prefix isGoSpace hfront
      rw [truncateString_data]
      exact List.take_prefix _ _
    · decide
    · decide
    · decide
  · exact h0

theorem noNl_fallbackNorm (s : String) : '\n' ∉ (fallbackNorm s).data := by
  have h0 : '\n' ∉ (replNewlines (trimSpace (removeStatus s))).data :=
    noNl_replNewlines _
  unfold fallbackNorm
  dsimp only
  split
  · rw [data_append]
    intro hmem
    rcases List.mem_append.1 hmem with h1 | h1
    · rw [truncateString_data] at h1
      exact noNl_take h0 _ h1
    · exact absurd h1 (by decide)
  · exact h0

theorem runeCount_fallbackNorm_le (s : String) :
    runeCount (fallbackNorm s) ≤ MaxFallbackTextLength := by
  unfold fallbackNorm
  dsimp only
  split
  · rw [runeCount_append]
    have h1 : runeCount (truncateString (replNewlines (trimSpace (removeStatus s)))
        (MaxFallbackTextLength - 3)) ≤ MaxFallbackTextLength - 3 := by
      rw [runeCount, truncateString_data]
      exact List.length_take_le _ _
    have h2 : runeCount ("..." : String) = 3 := by decide
    simp only [MaxFallbackTextLength] at *
    omega
  · omega

/-- The FallbackText normalization is idempotent exactly on inputs whose
normalized form no longer contains a `:status:` occurrence; stripping can
manufacture a fresh occurrence, which the next pass then removes. -/
theorem fallbackNorm_idem (s : String)
    (h : containsSub (fallbackNorm s) ":status:" = false) :
    fallbackNorm (fallbackNorm s) = fallbackNorm s := by
  have h1 : removeStatus (fallbackNorm s) = fallbackNorm s := removeStatus_eq_self h
  have h2 : trimSpace (fallbackNorm s) = fallbackNorm s := fallbackNorm_trimmed s
  have h3 : replNewlines (fallbackNorm s) = fallbackNorm s :=
    replNewlines_eq_self (noNl_fallbackNorm s)
  show (let f0 := replNewlines (trimSpace (removeStatus (fallbackNorm s)))
    if runeCount f0 > MaxFallbackTextLength then
      truncateString f0 (MaxFallbackTextLength - 3) ++ "..." else f0) = fallbackNorm s
  rw [h1, h2, h3]
  have := runeCount_fallbackNorm_le s
  simp only [if_neg (by omega : ¬ runeCount (fallbackNorm s) > MaxFallbackTextLength)]

theorem sevNorm_idem (s : String) : sevNorm (sevNorm s) = sevNorm s := by
  unfold sevNorm
  dsimp only
  split
  · rename_i h
    have herr : goToLower (trimSpace "error") = "error" := by decide
    rw [herr]
    rw [if_neg (by decide : ¬ (("error" : String) = "" ∨ ("error" : String) = "critical"))]
  · rename_i h
    rw [lowtrim_idem]
    rw [if_neg h]

theorem cleanFieldElem_idem (f : Option Field) :
    cleanFieldElem (cleanFieldElem f) = cleanFieldElem f := by
  cases f with
  | none => rfl
  | some field =>
    simp only [cleanFieldElem, Option.some.injEq]
    rw [contextNorm_idem MaxFieldTitleLength (by norm_num [MaxFieldTitleLength]),
        contextNorm_idem MaxFieldValueLength (by norm_num [MaxFieldValueLength])]

theorem cleanPlainInputElem_idem (i : Option WebhookPlainTextInput) :
    cleanPlainInputElem (cleanPlainInputElem i) = cleanPlainInputElem i := by
  cases i with
  | none => rfl
  | some input =>
    simp only [cleanPlainInputElem, Option.some.injEq]
    rw [trimSpace_idem, trimSpace_idem, trimSpace_idem]

theorem cleanCheckboxInputElem_idem (i : Option WebhookCheckboxInput) :
    cleanCheckboxInputElem (cleanCheckboxInputElem i) = cleanCheckboxInputElem i := by
  cases i with
  | none => rfl
  | some input =>
    simp only [cleanCheckboxInputElem, Option.some.injEq]
    rw [trimSpace_idem, trimSpace_idem]

theorem buttonStyle_norm_idem (x : String) :
    (if (if x = "default" then "" else x) = "default" then ""
     else (if x = "default" then "" else x)) = if x = "default" then "" else x := by
  split_ifs with h1 h2 <;> simp_all

theorem cleanWebhookElem_idem (w : Option Webhook) :
    cleanWebhookElem (cleanWebhookElem w) = cleanWebhookElem w := by
  cases w with
  | none => rfl
  | some hook =>
    simp only [cleanWebhookElem, Option.some.injEq]
    rw [trimSpace_idem, trimSpace_idem, trimSpace_idem, trimSpace_idem]
    rw [buttonStyle_norm_idem]
    rw [List.map_map, List.map_map]
    have h1 : List.map (cleanPlainInputElem ∘ cleanPlainInputElem) hook.PlainTextInput
        = List.map cleanPlainInputElem hook.PlainTextInput :=
      List.map_congr_left (fun x _ => cleanPlainInputElem_idem x)
    have h2 : List.map (cleanCheckboxInputElem ∘ cleanCheckboxInputElem) hook.CheckboxInput
        = List.map cleanCheckboxInputElem hook.CheckboxInput :=
      List.map_congr_left (fun x _ => cleanCheckboxInputElem_idem x)
    rw [h1, h2]

theorem cleanEscElem_idem (e : Option Escalation) :
    cleanEscElem (cleanEscElem e) = cleanEscElem e := by
  cases e with
  | none => rfl
  | some esc =>
    simp only [cleanEscElem, Option.some.injEq]
    rw [lowtrim_idem, uptrim_idem, List.map_map]
    have h1 : List.map (trimSpace ∘ trimSpace) esc.SlackMentions
        = List.map trimSpace esc.SlackMentions :=
      List.map_congr_left (fun x _ => trimSpace_idem x)
    rw [h1]

theorem escLE_trans (a b c : Option Escalation)
    (h1 : escLE a b = true) (h2 : escLE b c = true) : escLE a c = true := by
  cases a <;> cases b <;> cases c <;> simp_all [escLE] <;> omega

theorem escLE_total (a b : Option Escalation) : (escLE a b || escLE b a) = true := by
  cases a <;> cases b <;> simp [escLE] <;> omega

theorem escLE_cleanEscElem (a b : Option Escalation) :
    escLE (cleanEscElem a) (cleanEscElem b) = escLE a b := by
  cases a <;> cases b <;> rfl

instance : IsTotal (Option Escalation) escRel :=
  ⟨fun a b => by
    have := escLE_total a b
    rw [Bool.or_eq_true] at this
    exact this⟩

instance : IsTrans (Option Escalation) escRel :=
  ⟨fun a b c h1 h2 => escLE_trans a b c h1 h2⟩

theorem escClean_idem (E : List (Option Escalation)) :
    (if ((if E.length > 0 then (List.insertionSort escRel E).map cleanEscElem else E).length > 0)
      then
      ((List.insertionSort escRel
          (if E.length > 0 then (List.insertionSort escRel E).map cleanEscElem else E))).map
        cleanEscElem
     else (if E.length > 0 then (List.insertionSort escRel E).map cleanEscElem else E))
    = if E.length > 0 then (List.insertionSort escRel E).map cleanEscElem else E := by
  by_cases hE : E.length > 0
  · rw [if_pos hE]
    have hlen : ((List.insertionSort escRel E).map cleanEscElem).length = E.length := by
      rw [List.length_map, (List.perm_insertionSort escRel E).length_eq]
    rw [if_pos (by omega)]
    have hP : List.Pairwise escRel (List.insertionSort escRel E) :=
      List.sorted_insertionSort escRel E
    have hPS : List.Pairwise escRel ((List.insertionSort escRel E).map cleanEscElem) := by
      apply List.Pairwise.map cleanEscElem
      · intro a b hab
        show escLE _ _ = true
        rw [escLE_cleanEscElem]
        exact hab
      · exact hP
    rw [List.Sorted.insertionSort_eq hPS, List.map_map]
    exact List.map_congr_left (fun x _ => cleanEscElem_idem x)
  · simp only [if_neg hE]

theorem ts_clean_idem (now t : Int) :
    (if now - (if now - t > MaxTimestampAge then now else t) > MaxTimestampAge then now
     else (if now - t > MaxTimestampAge then now else t))
    = if now - t > MaxTimestampAge then now else t := by
  simp only [MaxTimestampAge]
  split_ifs <;> omega

theorem clamp_idem (x : Int) :
    (if (if x < 0 then 0 else x) < 0 then (0 : Int) else (if x < 0 then 0 else x))
    = if x < 0 then 0 else x := by
  split_ifs <;> omega

/-- Composite idempotence of Clean, under the hypothesis that the cleaned
FallbackText carries no residual `:status:` occurrence (see
`fallbackNorm_idem`; without it a second pass strips newly formed tokens). -/
theorem clean_idem_aux (now : Int) (a : Alert)
    (hfb : fallbackNorm (fallbackNorm a.FallbackText) = fallbackNorm a.FallbackText) :
    clean now (clean now a) = clean now a := by
  simp only [clean, Alert.mk.injEq]
  refine ⟨ts_clean_idem now a.Timestamp, trimSpace_idem _, lowtrim_idem _, headerNorm_idem _,
    headerNorm_idem _, textNorm_idem _, textNorm_idem _, hfb,
    contextNorm_idem MaxAuthorLength (by norm_num [MaxAuthorLength]) _,
    contextNorm_idem MaxHostLength (by norm_num [MaxHostLength]) _,
    contextNorm_idem MaxFooterLength (by norm_num [MaxFooterLength]) _,
    trimSpace_idem _, trivial, trivial, trivial, sevNorm_idem _, uptrim_idem _, lowtrim_idem _,
    contextNorm_idem MaxUsernameLength (by norm_num [MaxUsernameLength]) _,
    lowtrim_idem _, ?_, clamp_idem _, clamp_idem _, escClean_idem _, trivial, trivial, ?_, trivial⟩
  · rw [List.map_map]
    exact List.map_congr_left (fun f _ => cleanFieldElem_idem f)
  · rw [List.map_map]
    exact List.map_congr_left (fun w _ => cleanWebhookElem_idem w)

/-- All-empty Alert used as the base for concrete test inputs. -/
def baseAlert : Alert :=
  ⟨0, "", "", "", "", "", "", "", "", "", "", "", false, 0, false, "", "", "", "", "",
   [], 0, 0, [], [], false, [], []⟩

/-- Alert whose FallbackText regrows a `:status:` token when the embedded one
is stripped: removing the inner occurrence of `:status:` from
`:stat:status:us:` leaves exactly `:status:`. -/
def statusRegrowAlert : Alert := { baseAlert with FallbackText := ":stat:status:us:" }

/-- C2: the claim as stated is false: Clean is not idempotent on every Alert.
For `statusRegrowAlert` (timestamp current, so the timestamp clause is
inactive), the first Clean leaves FallbackText `:status:` and the second
strips it to the empty string. -/
theorem C2_counterexample_clean_not_idempotent :
    clean 0 (clean 0 statusRegrowAlert) ≠ clean 0 statusRegrowAlert := by
  intro h
  have h2 := congrArg Alert.FallbackText h
  revert h2
  decide

/-- C2 (amended): Clean is idempotent on every Alert whose cleaned
FallbackText contains no `:status:` occurrence (the `:status:`-stripping of
FallbackText, which can splice a fresh occurrence together, is the only
source of non-idempotence; the timestamp clause is handled by evaluating both
passes at one time instant, so a timestamp refreshed by the first pass is
current for the second). -/
theorem C2_clean_idempotent (now : Int) (a : Alert)
    (h : containsSub ((clean now a).FallbackText) ":status:" = false) :
    clean now (clean now a) = clean now a :=
  clean_idem_aux now a (fallbackNorm_idem _ (by simpa [clean] using h))

/-- Alert exercising several normalization paths for the C2 witness. -/
def witnessAlert : Alert :=
  { baseAlert with
    Header := "  a\nheader  ",
    Text := " body ",
    FallbackText := " note :status: done ",
    Severity := " Critical ",
    ArchivingDelaySeconds := -4,
    Fields := [some ⟨" t ", " v "⟩, none],
    Escalation := [some ⟨"Error", 90, [" <!here> "], "chan"⟩, some ⟨"panic", 40, [], ""⟩],
    Webhooks := [some ⟨" id ", " http://x ", "", " go ", "default", "", "", none, [], []⟩] }

theorem C2_clean_idempotent_witness :
    containsSub ((clean 0 witnessAlert).FallbackText) ":status:" = false ∧
    clean 0 (clean 0 witnessAlert) = clean 0 witnessAlert :=
  ⟨by decide, C2_clean_idempotent 0 witnessAlert (by decide)⟩

theorem trimL_eq_self_of (l : List Char)
    (hfront : l.dropWhile isGoSpace = l)
    (hlast : ∀ c, l.getLast? = some c → isGoSpace c = false) :
    trimL l = l := by
  have hrev : l.reverse.dropWhile isGoSpace = l.reverse := by
    apply dropWhile_eq_self_of_head
    intro c hc
    rw [List.head?_reverse] at hc
    exact hlast c hc
  rw [trimL, hfront, hrev, List.reverse_reverse]

theorem utf8Bytes_truncate_prefix (s : String) (n : Nat) :
    utf8Bytes (truncateString s n) <+: utf8Bytes s := by
  unfold utf8Bytes
  rw [truncateString_data]
  have hsplit : s.data = s.data.take n ++ s.data.drop n := (List.take_append_drop n s.data).symm
  refine ⟨(s.data.drop n).flatMap (fun c => utf8EncChar c.toNat), ?_⟩
  rw [← List.flatMap_append, ← hsplit]

theorem runeCount_contextNorm_le (m : Nat) (h3 : 3 ≤ m) (s : String) :
    runeCount (contextNorm m s) ≤ m :=
  runeCount_truncEllipsis_le m h3 (trimSpace s)

/-- C3: after Clean, every length-bounded string field is within its
documented rune-count maximum, and `truncateString` keeps whole runes of the
input (its rune sequence is a prefix of the input's rune sequence, and its
UTF-8 bytes are a prefix of the input's UTF-8 bytes, so multi-byte characters
are never split and the output is well-formed UTF-8 made of input runes). -/
theorem C3_truncation_safety (now : Int) (a : Alert) :
    runeCount ((clean now a).Header) ≤ MaxHeaderLength ∧
    runeCount ((clean now a).HeaderWhenResolved) ≤ MaxHeaderLength ∧
    runeCount ((clean now a).Text) ≤ MaxTextLength ∧
    runeCount ((clean now a).TextWhenResolved) ≤ MaxTextLength ∧
    runeCount ((clean now a).FallbackText) ≤ MaxFallbackTextLength ∧
    runeCount ((clean now a).Author) ≤ MaxAuthorLength ∧
    runeCount ((clean now a).Host) ≤ MaxHostLength ∧
    runeCount ((clean now a).Username) ≤ MaxUsernameLength ∧
    runeCount ((clean now a).Footer) ≤ MaxFooterLength ∧
    (∀ f ∈ (clean now a).Fields, ∀ fl, f = some fl →
      runeCount fl.Title ≤ MaxFieldTitleLength ∧ runeCount fl.Value ≤ MaxFieldValueLength) ∧
    (∀ s n, (truncateString s n).data = s.data.take n ∧
      utf8Bytes (truncateString s n) <+: utf8Bytes s) := by
  refine ⟨?_, ?_, ?_, ?_, ?_, ?_, ?_, ?_, ?_, ?_, ?_⟩
  · exact runeCount_truncEllipsis_le MaxHeaderLength (by norm_num [MaxHeaderLength]) _
  · exact runeCount_truncEllipsis_le MaxHeaderLength (by norm_num [MaxHeaderLength]) _
  · exact runeCount_shorten_le _
  · exact runeCount_shorten_le _
  · exact runeCount_fallbackNorm_le _
  · exact runeCount_contextNorm_le MaxAuthorLength (by norm_num [MaxAuthorLength]) _
  · exact runeCount_contextNorm_le MaxHostLength (by norm_num [MaxHostLength]) _
  · exact runeCount_contextNorm_le MaxUsernameLength (by norm_num [MaxUsernameLength]) _
  · exact runeCount_contextNorm_le MaxFooterLength (by norm_num [MaxFooterLength]) _
  · intro f hf fl hfl
    simp only [clean] at hf
    rcases List.mem_map.1 hf with ⟨g, _, hg⟩
    cases g with
    | none => rw [← hg] at hfl; exact absurd hfl (by simp [cleanFieldElem])
    | some field =>
      rw [← hg] at hfl
      simp only [cleanFieldElem, Option.some.injEq] at hfl
      rw [← hfl]
      exact ⟨runeCount_contextNorm_le MaxFieldTitleLength (by norm_num [MaxFieldTitleLength]) _,
        runeCount_contextNorm_le MaxFieldValueLength (by norm_num [MaxFieldValueLength]) _⟩
  · intro s n
    exact ⟨truncateString_data s n, utf8Bytes_truncate_prefix s n⟩

/-- Alert with an over-limit multi-byte header for the C3 witness: 131 copies
of a three-byte rune. -/
def unicodeAlert : Alert :=
  { baseAlert with
    Header := ⟨List.replicate 131 '日'⟩,
    Fields := [some ⟨⟨List.replicate 31 '日'⟩, "v"⟩] }

theorem C3_truncation_safety_witness :
    runeCount ((clean 0 unicodeAlert).Header) ≤ MaxHeaderLength ∧
    runeCount (contextNorm MaxFieldTitleLength ⟨List.replicate 31 '日'⟩) ≤ MaxFieldTitleLength ∧
    (truncateString ⟨List.replicate 131 '日'⟩ 127).data = (List.replicate 131 '日').take 127 := by
  have h := C3_truncation_safety 0 unicodeAlert
  refine ⟨h.1, ?_, ?_⟩
  · have hfields := h.2.2.2.2.2.2.2.2.2.1
    have hmem : cleanFieldElem (some ⟨⟨List.replicate 31 '日'⟩, "v"⟩) ∈ (clean 0 unicodeAlert).Fields := by
      simp [clean, unicodeAlert]
    have := hfields _ hmem
      ⟨contextNorm MaxFieldTitleLength ⟨List.replicate 31 '日'⟩, contextNorm MaxFieldValueLength "v"⟩
      (by simp [cleanFieldElem])
    exact this.1
  · exact (h.2.2.2.2.2.2.2.2.2.2 ⟨List.replicate 131 '日'⟩ 127).1

/-- Whether the last rune of a list is absent or not whitespace; the
truncation boundary condition under which the ellipsized result is exactly at
the maximum. -/
def lastNotSpace (l : List Char) : Bool :=
  match l.getLast? with
  | none => true
  | some c => !isGoSpace c

/-- Alert whose header has a space exactly at the truncation cut: the
`TrimSpace` between truncation and ellipsis then shaves it, leaving 129 runes
rather than the claimed exact 130. -/
def spaceBoundaryAlert : Alert :=
  { baseAlert with Header := ⟨List.replicate 126 'a' ++ ' ' :: List.replicate 10 'b'⟩ }

/-- C8: the claim as stated is false: for an over-limit Header whose
truncation cut lands on whitespace, the truncated-plus-ellipsis result is
shorter than the field maximum (129 runes, not exactly 130). -/
theorem C8_counterexample_not_exact :
    runeCount spaceBoundaryAlert.Header > MaxHeaderLength ∧
    runeCount ((clean 0 spaceBoundaryAlert).Header) ≠ MaxHeaderLength := by
  constructor
  · decide
  · intro h
    revert h
    decide

theorem length_take_of_lt {l : List α} {n : Nat} (h : n ≤ l.length) :
    (l.take n).length = n := by
  rw [List.length_take]
  omega

/-- Trimming the truncation of a trimmed string is the identity when the
truncation cut does not land on trimmable whitespace. -/
theorem trim_truncate_fix {y : String} {k : Nat} (hy : trimSpace y = y)
    (hcut : lastNotSpace (y.data.take k) = true) :
    trimSpace (truncateString y k) = truncateString y k := by
  apply String.ext
  rw [trimSpace]
  apply trimL_eq_self_of
  · apply dropWhile_eq_self_of_prefix isGoSpace (front_trimmed_of_trimmed hy)
    rw [truncateString_data]
    exact List.take_prefix _ _
  · intro c hc
    rw [truncateString_data] at hc
    unfold lastNotSpace at hcut
    rw [hc] at hcut
    simpa using hcut

/-- The truncate-trim-ellipsize pattern lands exactly at the maximum when the
input is trimmed, over the limit, and the cut lands on non-whitespace. -/
theorem truncEllipsis_exact {m : Nat} {y : String} (h3 : 3 ≤ m) (hy : trimSpace y = y)
    (hgt : runeCount y > m)
    (hcut : lastNotSpace (y.data.take (m - 3)) = true) :
    runeCount (truncEllipsis m y) = m := by
  unfold truncEllipsis
  rw [if_pos hgt, runeCount_append, trim_truncate_fix hy hcut]
  have hlen : runeCount (truncateString y (m - 3)) = m - 3 := by
    rw [runeCount, truncateString_data]
    apply length_take_of_lt
    unfold runeCount at hgt
    omega
  have h2 : runeCount ("..." : String) = 3 := by decide
  omega

/-- Truncation contract of one bounded field with pre-string `y` and cleaned
value `out`: at or under the limit the field is untouched; over the limit the
result is at most the maximum, and exactly at the maximum whenever the
truncation cut lands on non-whitespace. -/
def truncSpec (m : Nat) (y out : String) : Prop :=
  (runeCount y ≤ m → out = y) ∧
  (runeCount y > m →
    runeCount out ≤ m ∧
    (lastNotSpace (y.data.take (m - 3)) = true → runeCount out = m))

theorem truncEllipsis_truncSpec (m : Nat) (h3 : 3 ≤ m) (y : String)
    (hy : trimSpace y = y) : truncSpec m y (truncEllipsis m y) :=
  ⟨fun h => truncEllipsis_noop h,
   fun hgt => ⟨runeCount_truncEllipsis_le m h3 y,
     fun hcut => truncEllipsis_exact h3 hy hgt hcut⟩⟩

/-- Truncation contract of the Text fields with pre-string `y` and cleaned
value `out`, following the two branches of `shortenAlertTextIfNeeded`: at or
under the limit the field is untouched; over the limit the result is at most
the maximum, and exactly at the maximum whenever the branch-specific cut
(9997 runes plainly, 9994 runes when the text ends in a code fence) lands on
non-whitespace. -/
def textSpec (y out : String) : Prop :=
  (runeCount y ≤ MaxTextLength → out = y) ∧
  (runeCount y > MaxTextLength →
    runeCount out ≤ MaxTextLength ∧
    ("```".data.isSuffixOf y.data = false →
      lastNotSpace (y.data.take (MaxTextLength - 3)) = true →
      runeCount out = MaxTextLength) ∧
    ("```".data.isSuffixOf y.data = true →
      lastNotSpace (y.data.take (MaxTextLength - 6)) = true →
      runeCount out = MaxTextLength))

theorem shorten_textSpec (y : String) (hy : trimSpace y = y) :
    textSpec y (shortenAlertTextIfNeeded y) := by
  refine ⟨fun h => shorten_noop h, fun hgt => ⟨runeCount_shorten_le y, ?_, ?_⟩⟩
  · intro hsuf hcut
    unfold shortenAlertTextIfNeeded
    rw [if_neg (by omega), if_neg (by simp [hsuf])]
    rw [runeCount_append, trim_truncate_fix hy hcut]
    have hlen : runeCount (truncateString y (MaxTextLength - 3)) = MaxTextLength - 3 := by
      rw [runeCount, truncateString_data]
      apply length_take_of_lt
      unfold runeCount at hgt
      omega
    rw [hlen]
    decide
  · intro hsuf hcut
    unfold shortenAlertTextIfNeeded
    rw [if_neg (by omega), if_pos hsuf]
    rw [runeCount_append, trim_truncate_fix hy hcut]
    have hlen : runeCount (truncateString y (MaxTextLength - 6)) = MaxTextLength - 6 := by
      rw [runeCount, truncateString_data]
      apply length_take_of_lt
      unfold runeCount at hgt
      omega
    rw [hlen]
    decide

/-- C8 (amended): for every bounded field — Header, HeaderWhenResolved,
Author, Host, Username, Footer, field titles and values, Text and
TextWhenResolved — strings at or under the limit are not truncated; over-limit
strings are truncated by rune count with an ellipsis appended so that the
result is at most the maximum, and exactly at the maximum whenever the
truncation cut does not land on trimmable whitespace (for the Text fields in
either branch of `shortenAlertTextIfNeeded`, plain `"..."` or code-fence
`"...\x60\x60\x60"`); FallbackText, whose truncation is not re-trimmed, is
likewise untouched at or under its limit and always lands exactly at its
maximum when over it. -/
theorem C8_truncation_exactness (now : Int) (a : Alert) :
    truncSpec MaxHeaderLength (replNewlines (trimSpace a.Header)) ((clean now a).Header) ∧
    truncSpec MaxHeaderLength (replNewlines (trimSpace a.HeaderWhenResolved))
      ((clean now a).HeaderWhenResolved) ∧
    truncSpec MaxAuthorLength (trimSpace a.Author) ((clean now a).Author) ∧
    truncSpec MaxHostLength (trimSpace a.Host) ((clean now a).Host) ∧
    truncSpec MaxUsernameLength (trimSpace a.Username) ((clean now a).Username) ∧
    truncSpec MaxFooterLength (trimSpace a.Footer) ((clean now a).Footer) ∧
    (∀ fl : Field, some fl ∈ a.Fields →
      some (Field.mk (contextNorm MaxFieldTitleLength fl.Title)
          (contextNorm MaxFieldValueLength fl.Value)) ∈ (clean now a).Fields ∧
      truncSpec MaxFieldTitleLength (trimSpace fl.Title)
        (contextNorm MaxFieldTitleLength fl.Title) ∧
      truncSpec MaxFieldValueLength (trimSpace fl.Value)
        (contextNorm MaxFieldValueLength fl.Value)) ∧
    textSpec (trimSpace a.Text) ((clean now a).Text) ∧
    textSpec (trimSpace a.TextWhenResolved) ((clean now a).TextWhenResolved) ∧
    (runeCount (replNewlines (trimSpace (removeStatus a.FallbackText))) ≤ MaxFallbackTextLength →
      (clean now a).FallbackText = replNewlines (trimSpace (removeStatus a.FallbackText))) ∧
    (runeCount (replNewlines (trimSpace (removeStatus a.FallbackText))) > MaxFallbackTextLength →
      runeCount ((clean now a).FallbackText) = MaxFallbackTextLength) := by
  have hyH : trimSpace (replNewlines (trimSpace a.Header)) = replNewlines (trimSpace a.Header) := by
    rw [trim_repl_comm, trimSpace_idem]
  have hyHR : trimSpace (replNewlines (trimSpace a.HeaderWhenResolved)) =
      replNewlines (trimSpace a.HeaderWhenResolved) := by
    rw [trim_repl_comm, trimSpace_idem]
  have hcleanf : (clean now a).FallbackText = fallbackNorm a.FallbackText := by simp [clean]
  refine ⟨?_, ?_, ?_, ?_, ?_, ?_, ?_, ?_, ?_, ?_, ?_⟩
  · exact truncEllipsis_truncSpec MaxHeaderLength (by norm_num [MaxHeaderLength]) _ hyH
  · exact truncEllipsis_truncSpec MaxHeaderLength (by norm_num [MaxHeaderLength]) _ hyHR
  · exact truncEllipsis_truncSpec MaxAuthorLength (by norm_num [MaxAuthorLength]) _
      (trimSpace_idem _)
  · exact truncEllipsis_truncSpec MaxHostLength (by norm_num [MaxHostLength]) _
      (trimSpace_idem _)
  · exact truncEllipsis_truncSpec MaxUsernameLength (by norm_num [MaxUsernameLength]) _
      (trimSpace_idem _)
  · exact truncEllipsis_truncSpec MaxFooterLength (by norm_num [MaxFooterLength]) _
      (trimSpace_idem _)
  · intro fl hfl
    refine ⟨?_, ?_, ?_⟩
    · show cleanFieldElem (some fl) ∈ a.Fields.map cleanFieldElem
      exact List.mem_map_of_mem cleanFieldElem hfl
    · exact truncEllipsis_truncSpec MaxFieldTitleLength (by norm_num [MaxFieldTitleLength]) _
        (trimSpace_idem _)
    · exact truncEllipsis_truncSpec MaxFieldValueLength (by norm_num [MaxFieldValueLength]) _
        (trimSpace_idem _)
  · exact shorten_textSpec _ (trimSpace_idem _)
  · exact shorten_textSpec _ (trimSpace_idem _)
  · intro h
    rw [hcleanf]
    unfold fallbackNorm
    dsimp only
    rw [if_neg (by omega)]
  · intro h
    rw [hcleanf]
    unfold fallbackNorm
    dsimp only
    rw [if_pos h]
    rw [runeCount_append]
    have hlen : runeCount (truncateString (replNewlines (trimSpace (removeStatus a.FallbackText)))
        (MaxFallbackTextLength - 3)) = MaxFallbackTextLength - 3 := by
      rw [runeCount, truncateString_data]
      apply length_take_of_lt
      unfold runeCount at h
      omega
    rw [hlen]
    decide

/-- Alert with over-limit Header and FallbackText whose truncation cuts land
on non-space runes. -/
def exactCutAlert : Alert :=
  { baseAlert with
    Header := ⟨List.replicate 131 'a'⟩,
    FallbackText := ⟨List.replicate 151 'b'⟩ }

theorem trimSpace_replicate {c : Char} (hc : isGoSpace c = false) (n : Nat) :
    trimSpace ⟨List.replicate n c⟩ = ⟨List.replicate n c⟩ := by
  apply String.ext
  rw [trimSpace]
  apply trimL_eq_self_of
  · apply dropWhile_eq_self_of_head
    intro d hd
    rw [List.head?_replicate] at hd
    rcases Nat.eq_zero_or_pos n with h0 | h0
    · rw [if_pos h0] at hd
      exact Option.noConfusion hd
    · rw [if_neg (by omega)] at hd
      injection hd with hd
      rwa [hd] at hc
  · intro d hd
    rw [List.getLast?_replicate] at hd
    rcases Nat.eq_zero_or_pos n with h0 | h0
    · rw [if_pos h0] at hd
      exact Option.noConfusion hd
    · rw [if_neg (by omega)] at hd
      injection hd with hd
      rwa [hd] at hc

theorem lastNotSpace_take_replicate {c : Char} (hc : isGoSpace c = false) (n k : Nat) :
    lastNotSpace ((List.replicate n c).take k) = true := by
  rw [List.take_replicate]
  unfold lastNotSpace
  rw [List.getLast?_replicate]
  rcases Nat.eq_zero_or_pos (min k n) with h0 | h0
  · rw [if_pos h0]
  · rw [if_neg (by omega)]
    simp [hc]

theorem backtick_not_suffix_replicate (n : Nat) :
    ("```".data).isSuffixOf (List.replicate n 'a') = false := by
  cases hb : ("```".data).isSuffixOf (List.replicate n 'a') with
  | false => rfl
  | true =>
    exfalso
    have hsuf := List.isSuffixOf_iff_suffix.1 hb
    have hmem : '`' ∈ List.replicate n 'a' := hsuf.sublist.mem (by decide)
    exact absurd (List.eq_of_mem_replicate hmem) (by decide)

/-- Alert with an over-limit Text (10001 runes, kernel-evaluated through
replicate lemmas rather than by direct reduction), an over-limit Author, an
over-limit field value, and an in-limit field title and Footer, exercising
the Text, context-field and untouched clauses of the truncation contract. -/
def longTextAlert : Alert :=
  { baseAlert with
    Text := ⟨List.replicate 10001 'a'⟩,
    Author := ⟨List.replicate 101 'c'⟩,
    Fields := [some ⟨"short", ⟨List.replicate 201 'd'⟩⟩] }

theorem C8_truncation_exactness_witness :
    runeCount ((clean 0 exactCutAlert).Header) = MaxHeaderLength ∧
    runeCount ((clean 0 exactCutAlert).FallbackText) = MaxFallbackTextLength ∧
    runeCount ((clean 0 longTextAlert).Text) = MaxTextLength ∧
    runeCount ((clean 0 longTextAlert).Author) = MaxAuthorLength ∧
    runeCount (contextNorm MaxFieldValueLength ⟨List.replicate 201 'd'⟩) =
      MaxFieldValueLength ∧
    (clean 0 longTextAlert).Footer = trimSpace longTextAlert.Footer := by
  obtain ⟨hH, -, -, -, -, -, -, -, -, -, hFB⟩ := C8_truncation_exactness 0 exactCutAlert
  obtain ⟨-, -, hAu, -, -, hF, hFlds, hT, -, -, -⟩ := C8_truncation_exactness 0 longTextAlert
  obtain ⟨-, hHo⟩ := hH
  obtain ⟨-, hAuo⟩ := hAu
  obtain ⟨hFnoop, -⟩ := hF
  refine ⟨(hHo (by decide)).2 (by decide), hFB (by decide), ?_, (hAuo (by decide)).2 (by decide),
    ?_, hFnoop (by decide)⟩
  · have hy : trimSpace longTextAlert.Text = ⟨List.replicate 10001 'a'⟩ :=
      trimSpace_replicate (by decide) 10001
    have hgt : runeCount (trimSpace longTextAlert.Text) > MaxTextLength := by
      rw [hy]
      show (List.replicate 10001 'a').length > MaxTextLength
      rw [List.length_replicate]
      norm_num [MaxTextLength]
    have hsuf : ("```".data).isSuffixOf (trimSpace longTextAlert.Text).data = false := by
      rw [hy]
      exact backtick_not_suffix_replicate 10001
    have hcut : lastNotSpace ((trimSpace longTextAlert.Text).data.take (MaxTextLength - 3))
        = true := by
      rw [hy]
      exact lastNotSpace_take_replicate (by decide) 10001 (MaxTextLength - 3)
    obtain ⟨-, hTo⟩ := hT
    obtain ⟨-, hTexact, -⟩ := hTo hgt
    exact hTexact hsuf hcut
  · obtain ⟨-, -, hVal⟩ := hFlds ⟨"short", ⟨List.replicate 201 'd'⟩⟩ (by decide)
    obtain ⟨-, hValo⟩ := hVal
    exact (hValo (by decide)).2 (by decide)

theorem cleanFieldElem_eq_none_iff (g : Option Field) :
    cleanFieldElem g = none ↔ g = none := by
  cases g <;> simp [cleanFieldElem]

theorem cleanWebhookElem_eq_none_iff (g : Option Webhook) :
    cleanWebhookElem g = none ↔ g = none := by
  cases g <;> simp [cleanWebhookElem]

theorem payload_cleanWebhookElem (w : Option Webhook) :
    (cleanWebhookElem w).map Webhook.Payload = w.map Webhook.Payload := by
  cases w <;> rfl

/-- C10: Clean leaves the listed fields untouched, never adds or removes
elements of Fields, Webhooks, or Escalation (the latter is only permuted by
sorting, then normalized elementwise), preserves nil positions in Fields and
Webhooks, and leaves every webhook Payload map unchanged. -/
theorem C10_clean_frame (now : Int) (a : Alert) :
    (clean now a).IssueFollowUpEnabled = a.IssueFollowUpEnabled ∧
    (clean now a).AutoResolveSeconds = a.AutoResolveSeconds ∧
    (clean now a).AutoResolveAsInconclusive = a.AutoResolveAsInconclusive ∧
    (clean now a).FailOnRateLimitError = a.FailOnRateLimitError ∧
    (clean now a).Metadata = a.Metadata ∧
    (clean now a).IgnoreIfTextContains = a.IgnoreIfTextContains ∧
    (clean now a).Webhooks.map (Option.map Webhook.Payload)
      = a.Webhooks.map (Option.map Webhook.Payload) ∧
    (clean now a).Fields.length = a.Fields.length ∧
    (clean now a).Webhooks.length = a.Webhooks.length ∧
    (clean now a).Escalation.length = a.Escalation.length ∧
    (∀ i : Nat, ((clean now a).Fields[i]? = some none ↔ a.Fields[i]? = some none)) ∧
    (∀ i : Nat, ((clean now a).Webhooks[i]? = some none ↔ a.Webhooks[i]? = some none)) ∧
    ((clean now a).Escalation).Perm (a.Escalation.map cleanEscElem) := by
  refine ⟨rfl, rfl, rfl, rfl, rfl, rfl, ?_, ?_, ?_, ?_, ?_, ?_, ?_⟩
  · show (a.Webhooks.map cleanWebhookElem).map (Option.map Webhook.Payload)
      = a.Webhooks.map (Option.map Webhook.Payload)
    rw [List.map_map]
    exact List.map_congr_left (fun w _ => payload_cleanWebhookElem w)
  · exact List.length_map _ _
  · exact List.length_map _ _
  · show (if a.Escalation.length > 0 then
        (List.insertionSort escRel a.Escalation).map cleanEscElem else a.Escalation).length
      = a.Escalation.length
    split
    · rw [List.length_map, (List.perm_insertionSort escRel a.Escalation).length_eq]
    · rfl
  · intro i
    show (a.Fields.map cleanFieldElem)[i]? = some none ↔ a.Fields[i]? = some none
    rw [List.getElem?_map]
    cases hv : a.Fields[i]? with
    | none => simp
    | some g =>
      simp only [Option.map_some']
      rw [Option.some.injEq, Option.some.injEq, cleanFieldElem_eq_none_iff]
  · intro i
    show (a.Webhooks.map cleanWebhookElem)[i]? = some none ↔ a.Webhooks[i]? = some none
    rw [List.getElem?_map]
    cases hv : a.Webhooks[i]? with
    | none => simp
    | some g =>
      simp only [Option.map_some']
      rw [Option.some.injEq, Option.some.injEq, cleanWebhookElem_eq_none_iff]
  · show (if a.Escalation.length > 0 then
        (List.insertionSort escRel a.Escalation).map cleanEscElem else a.Escalation).Perm
      (a.Escalation.map cleanEscElem)
    split
    · exact (List.perm_insertionSort escRel a.Escalation).map cleanEscElem
    · rename_i hlen
      have : a.Escalation = [] := by
        cases h0 : a.Escalation with
        | nil => rfl
        | cons x xs => rw [h0] at hlen; simp at hlen
      rw [this]
      exact List.Perm.refl _

theorem C10_clean_frame_witness :
    (clean 0 witnessAlert).Metadata = witnessAlert.Metadata ∧
    (clean 0 witnessAlert).Fields.length = witnessAlert.Fields.length ∧
    ((clean 0 witnessAlert).Fields[1]? = some none ↔ witnessAlert.Fields[1]? = some none) ∧
    ((clean 0 witnessAlert).Escalation).Perm (witnessAlert.Escalation.map cleanEscElem) := by
  have h := C10_clean_frame 0 witnessAlert
  exact ⟨h.2.2.2.2.1, h.2.2.2.2.2.2.2.1, h.2.2.2.2.2.2.2.2.2.2.1 1, h.2.2.2.2.2.2.2.2.2.2.2.2⟩

instance instDecEqExcept {ε α : Type} [DecidableEq ε] [DecidableEq α] :
    DecidableEq (Except ε α) := fun x y =>
  match x, y with
  | Except.ok a, Except.ok b =>
    if h : a = b then isTrue (by rw [h]) else isFalse (fun hc => h (by injection hc))
  | Except.error a, Except.error b =>
    if h : a = b then isTrue (by rw [h]) else isFalse (fun hc => h (by injection hc))
  | Except.ok _, Except.error _ => isFalse (fun hc => Except.noConfusion hc)
  | Except.error _, Except.ok _ => isFalse (fun hc => Except.noConfusion hc)

/-- Key-size acceptance of Go `aes.NewCipher`: AES accepts 16-, 24- or
32-byte keys (AES-128/192/256) and errors otherwise. -/
def aesKeySizeOk (key : List Nat) : Bool :=
  key.length == 16 || key.length == 24 || key.length == 32

/-- Go `gcm.NonceSize()` for the standard GCM mode. -/
def gcmNonceSize : Nat := 12

/-- GCM authentication tag size. -/
def gcmTagSize : Nat := 16

/-- Abstract parameters of AES-GCM as reached through Go `cipher.NewGCM`: a
keystream byte generator (CTR mode) and a tag function over the ciphertext;
the wrapper behavior of Encrypt/Decrypt (framing, key-size checks, round
trip) holds for every instantiation, so the block cipher is kept abstract. -/
structure GCMSim where
  ksByte : List Nat → List Nat → Nat → Nat
  tagFn : List Nat → List Nat → List Nat → List Nat
  tag_len : ∀ k n c, (tagFn k n c).length = gcmTagSize

/-- CTR-mode XOR of the keystream from byte index `i`. -/
def ctrFrom (ks : Nat → Nat) : Nat → List Nat → List Nat
  | _, [] => []
  | i, b :: bs => (b ^^^ (ks i % 256)) :: ctrFrom ks (i + 1) bs

/-- Go `gcm.Seal(nil, nonce, data, nil)`: ciphertext followed by the tag. -/
def gcmSeal (g : GCMSim) (key nonce m : List Nat) : List Nat :=
  ctrFrom (g.ksByte key nonce) 0 m ++ g.tagFn key nonce (ctrFrom (g.ksByte key nonce) 0 m)

/-- Go `gcm.Open(nil, nonce, ciphertext, nil)`: split off the tag, verify it,
and decrypt; both a short input and a tag mismatch yield the authentication
error. -/
def gcmOpen (g : GCMSim) (key nonce data : List Nat) : Except String (List Nat) :=
  if data.length < gcmTagSize then Except.error "cipher: message authentication failed"
  else if data.drop (data.length - gcmTagSize)
      = g.tagFn key nonce (data.take (data.length - gcmTagSize)) then
    Except.ok (ctrFrom (g.ksByte key nonce) 0 (data.take (data.length - gcmTagSize)))
  else Except.error "cipher: message authentication failed"

/-- Go `Encrypt` (encryption.go:11-29); the fresh random nonce drawn from
`rand.Reader` is supplied by `rnd`, 12 bytes as `gcm.NonceSize()`. -/
def Encrypt (g : GCMSim) (rnd : Nat → Nat) (key data : List Nat) : Except String (List Nat) :=
  if aesKeySizeOk key then
    Except.ok ((List.range gcmNonceSize).map (fun i => rnd i % 256) ++
      gcmSeal g key ((List.range gcmNonceSize).map (fun i => rnd i % 256)) data)
  else Except.error ("crypto/aes: invalid key size " ++ toString key.length)

/-- Go `Decrypt` (encryption.go:31-51). -/
def Decrypt (g : GCMSim) (key encryptedData : List Nat) : Except String (List Nat) :=
  if aesKeySizeOk key then
    if encryptedData.length < gcmNonceSize then
      Except.error "encrypted data length is too short"
    else
      gcmOpen g key (encryptedData.take gcmNonceSize) (encryptedData.drop gcmNonceSize)
  else Except.error ("crypto/aes: invalid key size " ++ toString key.length)

theorem length_ctrFrom (ks : Nat → Nat) (i : Nat) (m : List Nat) :
    (ctrFrom ks i m).length = m.length := by
  induction m generalizing i with
  | nil => rfl
  | cons b bs ih => simp [ctrFrom, ih]

theorem ctrFrom_invol (ks : Nat → Nat) (i : Nat) (m : List Nat) :
    ctrFrom ks i (ctrFrom ks i m) = m := by
  induction m generalizing i with
  | nil => rfl
  | cons b bs ih =>
    simp only [ctrFrom, List.cons.injEq]
    constructor
    · rw [Nat.xor_assoc, Nat.xor_self, Nat.xor_zero]
    · exact ih (i + 1)

/-- C1 (amended): for every abstract GCM instance and nonce source, Encrypt
then Decrypt round-trips under a 32-byte key; Encrypt and Decrypt fail
exactly for keys whose length is not 16, 24, or 32 bytes (Go `aes.NewCipher`
also accepts AES-128/192 keys, so "not exactly 32 bytes" is too strong); and
under an accepted key, Decrypt fails with the "too short" error on every blob
shorter than the 12-byte nonce. -/
theorem C1_encrypt_decrypt (g : GCMSim) (rnd : Nat → Nat) (key m : List Nat) :
    (key.length = 32 → (Encrypt g rnd key m).bind (Decrypt g key) = Except.ok m) ∧
    (key.length ≠ 16 ∧ key.length ≠ 24 ∧ key.length ≠ 32 →
      Encrypt g rnd key m = Except.error ("crypto/aes: invalid key size " ++ toString key.length) ∧
      Decrypt g key m = Except.error ("crypto/aes: invalid key size " ++ toString key.length)) ∧
    (aesKeySizeOk key = true → m.length < gcmNonceSize →
      Decrypt g key m = Except.error "encrypted data length is too short") := by
  refine ⟨?_, ?_, ?_⟩
  · intro h32
    have hok : aesKeySizeOk key = true := by simp [aesKeySizeOk, h32]
    set nonce := (List.range gcmNonceSize).map (fun i => rnd i % 256) with hnonce
    have hnlen : nonce.length = gcmNonceSize := by
      rw [hnonce, List.length_map, List.length_range]
    rw [Encrypt, if_pos hok, Except.bind]
    rw [Decrypt, if_pos hok]
    set ct := ctrFrom (g.ksByte key nonce) 0 m with hct
    have hctlen : ct.length = m.length := length_ctrFrom _ _ _
    have htaglen : (g.tagFn key nonce ct).length = gcmTagSize := g.tag_len _ _ _
    have hbody : gcmSeal g key nonce m = ct ++ g.tagFn key nonce ct := rfl
    rw [hbody]
    have hlen : (nonce ++ (ct ++ g.tagFn key nonce ct)).length
        = gcmNonceSize + (m.length + gcmTagSize) := by
      simp [hnlen, hctlen, htaglen]
    rw [if_neg (by rw [hlen]; simp [gcmNonceSize])]
    rw [List.take_left' hnlen, List.drop_left' hnlen]
    rw [gcmOpen]
    have hlen2 : (ct ++ g.tagFn key nonce ct).length = m.length + gcmTagSize := by
      simp [hctlen, htaglen]
    rw [if_neg (by rw [hlen2]; simp [gcmTagSize])]
    have hsub : (ct ++ g.tagFn key nonce ct).length - gcmTagSize = ct.length := by
      rw [hlen2, hctlen]
      omega
    rw [hsub, List.take_left, List.drop_left, if_pos rfl, hct, ctrFrom_invol]
  · intro ⟨h16, h24, h32⟩
    have hbad : aesKeySizeOk key = false := by
      simp [aesKeySizeOk, h16, h24, h32]
    rw [Encrypt, if_neg (by rw [hbad]; exact Bool.false_ne_true),
        Decrypt, if_neg (by rw [hbad]; exact Bool.false_ne_true)]
    exact ⟨rfl, rfl⟩
  · intro hok hshort
    rw [Decrypt, if_pos hok, if_pos hshort]

/-- Degenerate concrete GCM instance used to evaluate the wrapper at
concrete inputs. -/
def zeroGCM : GCMSim :=
  ⟨fun _ _ _ => 0, fun _ _ _ => List.replicate gcmTagSize 0, fun _ _ _ => by simp⟩

/-- C1: the claim as stated is false: a 16-byte key is not rejected; Encrypt
succeeds and the round trip completes under AES-128. -/
theorem C1_counterexample_key16 :
    (List.replicate 16 1 : List Nat).length ≠ 32 ∧
    (Encrypt zeroGCM (fun _ => 0) (List.replicate 16 1) [1, 2, 3]).isOk = true ∧
    (Encrypt zeroGCM (fun _ => 0) (List.replicate 16 1) [1, 2, 3]).bind
      (Decrypt zeroGCM (List.replicate 16 1)) = Except.ok [1, 2, 3] := by
  exact ⟨by decide, by decide, by decide⟩

theorem C1_encrypt_decrypt_witness :
    (Encrypt zeroGCM (fun _ => 0) (List.replicate 32 7) [5, 6]).bind
      (Decrypt zeroGCM (List.replicate 32 7)) = Except.ok [5, 6] ∧
    Decrypt zeroGCM (List.replicate 32 7) [1] = Except.error "encrypted data length is too short" ∧
    (Encrypt zeroGCM (fun _ => 0) (List.replicate 10 0) []).isOk = false :=
  ⟨(C1_encrypt_decrypt zeroGCM (fun _ => 0) (List.replicate 32 7) [5, 6]).1 (by decide),
   (C1_encrypt_decrypt zeroGCM (fun _ => 0) (List.replicate 32 7) [1]).2.2 (by decide) (by decide),
   by decide⟩

/-- Byte stream written into the SHA-256 hasher by Go `hash` (alert.go:880):
each element's UTF-8 bytes followed by a single NUL delimiter byte. -/
def hashInput (parts : List String) : List Nat :=
  parts.flatMap (fun s => utf8Bytes s ++ [0])

/-- Character of the base64url alphabet for a 6-bit value. -/
def b64Char (n : Nat) : Char :=
  "ABCDEFGHIJKLMNOPQRSTUVWXYZabcdefghijklmnopqrstuvwxyz0123456789-_".data.getD n 'A'

/-- Go `base64.URLEncoding.EncodeToString`: 3-byte groups to 4 characters,
padded with `=`. -/
def base64urlChunks : List Nat → List Char
  | [] => []
  | [b0] => [b64Char (b0 / 4), b64Char (b0 % 4 * 16), '=', '=']
  | [b0, b1] => [b64Char (b0 / 4), b64Char (b0 % 4 * 16 + b1 / 16), b64Char (b1 % 16 * 4), '=']
  | b0 :: b1 :: b2 :: rest =>
    b64Char (b0 / 4) :: b64Char (b0 % 4 * 16 + b1 / 16) ::
      b64Char (b1 % 16 * 4 + b2 / 64) :: b64Char (b2 % 64) :: base64urlChunks rest

/-- Go `base64.URLEncoding.EncodeToString`. -/
def base64url (bs : List Nat) : String := ⟨base64urlChunks bs⟩

/-- Go `hash(input...)` (alert.go:880-893), parameterized by the digest
function: SHA-256 is a fixed function of its input stream, so every equality
of `hashInput` streams forces equal hashes, and the determinism facts proved
below hold for every digest. -/
def hash (digest : List Nat → List Nat) (input : List String) : String :=
  base64url (digest (hashInput input))

/-- The seven strings Go `Alert.UniqueID` (alert.go:296-298) feeds to `hash`,
with the `Timestamp.UTC().Format(time.RFC3339Nano)` formatter abstracted as
`fmt`. -/
def uidParts (fmt : Int → String) (a : Alert) : List String :=
  ["alert", a.SlackChannelID, a.RouteKey, a.CorrelationID, fmt a.Timestamp, a.Header, a.Text]

/-- Go `Alert.UniqueID`. -/
def UniqueID (digest : List Nat → List Nat) (fmt : Int → String) (a : Alert) : String :=
  hash digest (uidParts fmt a)

/-- Number of bytes of a UTF-8 sequence, from its leading byte. -/
def charLen (b : Nat) : Nat :=
  if b < 0x80 then 1 else if b < 0xE0 then 2 else if b < 0xF0 then 3 else 4

/-- Scalar value decoded from a leading byte and the following bytes. -/
def decAt (b : Nat) (rest : List Nat) : Nat :=
  if b < 0x80 then b
  else if b < 0xE0 then (b - 0xC0) * 64 + (rest.getD 0 0 - 0x80)
  else if b < 0xF0 then (b - 0xE0) * 4096 + (rest.getD 0 0 - 0x80) * 64 + (rest.getD 1 0 - 0x80)
  else (b - 0xF0) * 0x40000 + (rest.getD 0 0 - 0x80) * 4096 + (rest.getD 1 0 - 0x80) * 64 +
    (rest.getD 2 0 - 0x80)

/-- UTF-8 decoder on byte lists: left inverse of the encoder on encoded
streams, used to prove that `utf8Bytes` is injective (proof-side only). -/
def utf8Decode : List Nat → List Nat
  | [] => []
  | b :: rest => decAt b rest :: utf8Decode (rest.drop (charLen b - 1))
termination_by l => l.length
decreasing_by
  simp only [List.length_cons]
  have := List.length_drop (charLen b - 1) rest
  omega

theorem char_toNat_lt (c : Char) : c.toNat < 0x110000 := by
  rcases c.valid with h | ⟨_, h2⟩
  · exact Nat.lt_trans h (by norm_num)
  · exact h2

theorem charLen_eq1 {b : Nat} (h : b < 0x80) : charLen b = 1 := by
  rw [charLen, if_pos h]

theorem charLen_eq2 {b : Nat} (h1 : 0x80 ≤ b) (h2 : b < 0xE0) : charLen b = 2 := by
  rw [charLen, if_neg (by omega), if_pos h2]

theorem charLen_eq3 {b : Nat} (h1 : 0xE0 ≤ b) (h2 : b < 0xF0) : charLen b = 3 := by
  rw [charLen, if_neg (by omega), if_neg (by omega), if_pos h2]

theorem charLen_eq4 {b : Nat} (h1 : 0xF0 ≤ b) : charLen b = 4 := by
  rw [charLen, if_neg (by omega), if_neg (by omega), if_neg (by omega)]

theorem decAt_eq1 {b : Nat} (h : b < 0x80) (rest : List Nat) : decAt b rest = b := by
  rw [decAt, if_pos h]

theorem decAt_eq2 {b : Nat} (h1 : 0x80 ≤ b) (h2 : b < 0xE0) (rest : List Nat) :
    decAt b rest = (b - 0xC0) * 64 + (rest.getD 0 0 - 0x80) := by
  rw [decAt, if_neg (by omega), if_pos h2]

theorem decAt_eq3 {b : Nat} (h1 : 0xE0 ≤ b) (h2 : b < 0xF0) (rest : List Nat) :
    decAt b rest = (b - 0xE0) * 4096 + (rest.getD 0 0 - 0x80) * 64 + (rest.getD 1 0 - 0x80) := by
  rw [decAt, if_neg (by omega), if_neg (by omega), if_pos h2]

theorem decAt_eq4 {b : Nat} (h1 : 0xF0 ≤ b) (rest : List Nat) :
    decAt b rest = (b - 0xF0) * 0x40000 + (rest.getD 0 0 - 0x80) * 4096 +
      (rest.getD 1 0 - 0x80) * 64 + (rest.getD 2 0 - 0x80) := by
  rw [decAt, if_neg (by omega), if_neg (by omega), if_neg (by omega)]

theorem utf8Decode_encChar' (n : Nat) (hlt : n < 0x110000) (rest : List Nat) :
    utf8Decode (utf8EncChar n ++ rest) = n :: utf8Decode rest := by
  unfold utf8EncChar
  by_cases h1 : n < 0x80
  · rw [if_pos h1]
    show utf8Decode (n :: rest) = n :: utf8Decode rest
    rw [utf8Decode, charLen_eq1 h1, decAt_eq1 h1]
    simp
  by_cases h2 : n < 0x800
  · rw [if_neg h1, if_pos h2]
    show utf8Decode ((0xC0 + n / 64) :: (0x80 + n % 64) :: rest) = n :: utf8Decode rest
    rw [utf8Decode, charLen_eq2 (by omega) (by omega), decAt_eq2 (by omega) (by omega)]
    simp only [List.getD_cons_zero, List.drop_succ_cons, List.drop_zero]
    congr 1
    omega
  by_cases h3 : n < 0x10000
  · rw [if_neg h1, if_neg h2, if_pos h3]
    show utf8Decode ((0xE0 + n / 4096) :: (0x80 + n / 64 % 64) :: (0x80 + n % 64) :: rest)
      = n :: utf8Decode rest
    rw [utf8Decode, charLen_eq3 (by omega) (by omega), decAt_eq3 (by omega) (by omega)]
    simp only [List.getD_cons_zero, List.getD_cons_succ, List.drop_succ_cons, List.drop_zero]
    congr 1
    omega
  · rw [if_neg h1, if_neg h2, if_neg h3]
    show utf8Decode ((0xF0 + n / 0x40000) :: (0x80 + n / 4096 % 64) ::
        (0x80 + n / 64 % 64) :: (0x80 + n % 64) :: rest) = n :: utf8Decode rest
    rw [utf8Decode, charLen_eq4 (by omega), decAt_eq4 (by omega)]
    simp only [List.getD_cons_zero, List.getD_cons_succ, List.drop_succ_cons, List.drop_zero]
    congr 1
    omega

theorem utf8Decode_encChar (c : Char) (rest : List Nat) :
    utf8Decode (utf8EncChar c.toNat ++ rest) = c.toNat :: utf8Decode rest :=
  utf8Decode_encChar' c.toNat (char_toNat_lt c) rest

theorem utf8Bytes_cons (c : Char) (cs : List Char) :
    utf8Bytes ⟨c :: cs⟩ = utf8EncChar c.toNat ++ utf8Bytes ⟨cs⟩ := by
  simp [utf8Bytes]

theorem utf8Decode_utf8Bytes (l : List Char) :
    utf8Decode (utf8Bytes ⟨l⟩) = l.map Char.toNat := by
  induction l with
  | nil => simp [utf8Bytes, utf8Decode]
  | cons c cs ih => rw [utf8Bytes_cons, utf8Decode_encChar, ih, List.map_cons]

theorem utf8Bytes_inj {s t : String} (h : utf8Bytes s = utf8Bytes t) : s = t := by
  apply String.ext
  have hd : utf8Decode (utf8Bytes ⟨s.data⟩) = utf8Decode (utf8Bytes ⟨t.data⟩) := by
    rw [show (⟨s.data⟩ : String) = s from rfl, show (⟨t.data⟩ : String) = t from rfl, h]
  rw [utf8Decode_utf8Bytes, utf8Decode_utf8Bytes] at hd
  have hinj : Function.Injective Char.toNat := by
    intro a b hab
    exact Char.ext (UInt32.ext hab)
  exact List.map_injective_iff.2 hinj hd

theorem append_zero_inj {a1 b1 a2 b2 : List Nat} (h1 : 0 ∉ a1) (h2 : 0 ∉ a2)
    (h : a1 ++ 0 :: b1 = a2 ++ 0 :: b2) : a1 = a2 ∧ b1 = b2 := by
  induction a1 generalizing a2 with
  | nil =>
    cases a2 with
    | nil =>
      simp only [List.nil_append] at h
      exact ⟨rfl, by injection h⟩
    | cons y ys =>
      simp only [List.nil_append, List.cons_append] at h
      have : y = 0 := by injection h with h' _; exact h'.symm
      exact absurd (this ▸ List.mem_cons_self y ys) h2
  | cons x xs ih =>
    cases a2 with
    | nil =>
      simp only [List.nil_append, List.cons_append] at h
      have : x = 0 := by injection h
      exact absurd (this ▸ List.mem_cons_self x xs) h1
    | cons y ys =>
      simp only [List.cons_append] at h
      have hx : x = y := by injection h
      have ht : xs ++ 0 :: b1 = ys ++ 0 :: b2 := by injection h
      have := ih (fun hm => h1 (List.mem_cons_of_mem x hm))
        (fun hm => h2 (List.mem_cons_of_mem y hm)) ht
      exact ⟨by rw [hx, this.1], this.2⟩

theorem hashInput_cons (s : String) (t : List String) :
    hashInput (s :: t) = utf8Bytes s ++ 0 :: hashInput t := by
  simp [hashInput]

/-- On NUL-free parts, the NUL-delimited byte stream is injective. -/
theorem hashInput_inj {l1 l2 : List String}
    (h1 : ∀ s ∈ l1, 0 ∉ utf8Bytes s) (h2 : ∀ s ∈ l2, 0 ∉ utf8Bytes s) :
    hashInput l1 = hashInput l2 ↔ l1 = l2 := by
  constructor
  · intro h
    induction l1 generalizing l2 with
    | nil =>
      cases l2 with
      | nil => rfl
      | cons y ys =>
        rw [hashInput_cons] at h
        simp only [hashInput] at h
        exact absurd h.symm (by simp)
    | cons x xs ih =>
      cases l2 with
      | nil =>
        rw [hashInput_cons] at h
        simp only [hashInput] at h
        exact absurd h (by simp)
      | cons y ys =>
        rw [hashInput_cons, hashInput_cons] at h
        have := append_zero_inj (h1 x (by simp)) (h2 y (by simp)) h
        have hx : x = y := utf8Bytes_inj this.1
        have hxs : xs = ys := ih (fun s hs => h1 s (List.mem_cons_of_mem x hs))
          (fun s hs => h2 s (List.mem_cons_of_mem y hs)) this.2
        rw [hx, hxs]
  · intro h
    rw [h]

/-- Identity digest used to evaluate the hash pipeline at concrete inputs;
since equal `hashInput` streams give equal hashes for every digest function,
including SHA-256, equalities exhibited through it transfer to the real hash. -/
def idDigest : List Nat → List Nat := fun l => l

/-- Constant timestamp formatter for concrete evaluations. -/
def fmt0 : Int → String := fun _ => "1970-01-01T00:00:00Z"

/-- Alerts agreeing everywhere except that a NUL byte moves across the
Header/Text boundary. -/
def nulHeaderAlert1 : Alert := { baseAlert with Header := "a\x00", Text := "b" }

/-- Partner of `nulHeaderAlert1` with the NUL at the start of Text. -/
def nulHeaderAlert2 : Alert := { baseAlert with Header := "a", Text := "\x00b" }

/-- C4: the claim as stated is false: two Alerts differing in Header (and in
Text) can feed the identical byte stream to SHA-256, because the NUL
separator no longer delimits fields that themselves contain NUL bytes; their
UniqueIDs therefore coincide for every digest function, including SHA-256. -/
theorem C4_counterexample_nul_collision :
    nulHeaderAlert1.Header ≠ nulHeaderAlert2.Header ∧
    hashInput (uidParts fmt0 nulHeaderAlert1) = hashInput (uidParts fmt0 nulHeaderAlert2) ∧
    UniqueID idDigest fmt0 nulHeaderAlert1 = UniqueID idDigest fmt0 nulHeaderAlert2 := by
  refine ⟨by decide, by decide, ?_⟩
  show base64url (idDigest (hashInput (uidParts fmt0 nulHeaderAlert1)))
    = base64url (idDigest (hashInput (uidParts fmt0 nulHeaderAlert2)))
  decide

/-- C4 (amended): UniqueID is identical for two Alerts agreeing on the six
hashed fields (with the timestamp compared as formatted); and for Alerts
whose hashed fields are free of NUL bytes, the SHA-256 input streams are
equal exactly when the six fields agree, so the NUL separator prevents
concatenation collisions (such as Header "ab"/Text "c" versus Header
"a"/Text "bc") and distinct NUL-free tuples give distinct UniqueIDs up to
SHA-256 collision; with NUL bytes inside fields the streams can coincide
(see the counterexample). -/
theorem C4_uniqueid_determinism (digest : List Nat → List Nat) (fmt : Int → String)
    (a b : Alert) :
    ((a.SlackChannelID = b.SlackChannelID ∧ a.RouteKey = b.RouteKey ∧
      a.CorrelationID = b.CorrelationID ∧ fmt a.Timestamp = fmt b.Timestamp ∧
      a.Header = b.Header ∧ a.Text = b.Text) →
      UniqueID digest fmt a = UniqueID digest fmt b) ∧
    ((∀ s ∈ uidParts fmt a, 0 ∉ utf8Bytes s) → (∀ s ∈ uidParts fmt b, 0 ∉ utf8Bytes s) →
      (hashInput (uidParts fmt a) = hashInput (uidParts fmt b) ↔
        (a.SlackChannelID = b.SlackChannelID ∧ a.RouteKey = b.RouteKey ∧
         a.CorrelationID = b.CorrelationID ∧ fmt a.Timestamp = fmt b.Timestamp ∧
         a.Header = b.Header ∧ a.Text = b.Text))) := by
  constructor
  · intro ⟨e1, e2, e3, e4, e5, e6⟩
    show hash digest (uidParts fmt a) = hash digest (uidParts fmt b)
    rw [show uidParts fmt a = uidParts fmt b by rw [uidParts, uidParts, e1, e2, e3, e4, e5, e6]]
  · intro hnf1 hnf2
    rw [hashInput_inj hnf1 hnf2]
    unfold uidParts
    simp only [List.cons.injEq, and_iff_right rfl, List.cons.injEq]
    tauto

/-- Headers "ab"/"a" and Texts "c"/"bc": plain concatenation of the hashed
fields would collide, the NUL-delimited streams do not. -/
def abcAlert1 : Alert := { baseAlert with Header := "ab", Text := "c" }

/-- Partner of `abcAlert1` shifting one character across the boundary. -/
def abcAlert2 : Alert := { baseAlert with Header := "a", Text := "bc" }

/-- Alert sharing the six hashed fields with `abcAlert1` but differing in an
unhashed field. -/
def abcAlert1' : Alert := { baseAlert with Header := "ab", Text := "c", Footer := "f" }

theorem C4_uniqueid_determinism_witness :
    UniqueID idDigest fmt0 abcAlert1 = UniqueID idDigest fmt0 abcAlert1' ∧
    hashInput (uidParts fmt0 abcAlert1) ≠ hashInput (uidParts fmt0 abcAlert2) := by
  constructor
  · exact (C4_uniqueid_determinism idDigest fmt0 abcAlert1 abcAlert1').1
      ⟨rfl, rfl, rfl, rfl, rfl, rfl⟩
  · intro heq
    have hiff := (C4_uniqueid_determinism idDigest fmt0 abcAlert1 abcAlert2).2
      (by decide) (by decide)
    have := (hiff.1 heq).2.2.2.2.1
    exact absurd this (by decide)

/-- Go `Alert.ValidateCorrelationID` (alert.go:557-567). The length check is
Go `len(a.CorrelationID)`, i.e. UTF-8 bytes, not runes. -/
def ValidateCorrelationID (a : Alert) : Option String :=
  if a.CorrelationID = "" then none
  else if byteLen a.CorrelationID > MaxCorrelationIDLength then
    some ("correlationId is too long, expected length <=" ++ toString MaxCorrelationIDLength)
  else none

/-- Alert whose CorrelationID is 167 copies of the three-byte rune U+20AC:
167 runes but 501 bytes. -/
def euroCorrAlert : Alert :=
  { baseAlert with CorrelationID := ⟨List.replicate 167 '€'⟩ }

/-- C7: the claim as stated is false: the correlation-ID check measures Go
byte length, not runes; a 167-rune CorrelationID of three-byte characters
(501 bytes) is rejected although its rune count is far below 500. -/
theorem C7_counterexample_rune_vs_byte :
    runeCount euroCorrAlert.CorrelationID ≤ MaxCorrelationIDLength ∧
    ValidateCorrelationID euroCorrAlert
      = some "correlationId is too long, expected length <=500" := by
  constructor
  · decide
  · decide

/-- C7 (amended): for a non-empty CorrelationID the check passes exactly when
the UTF-8 byte length (Go `len`) is at most 500, and rejects longer values
with the "correlationId is too long" error; rune count is not what is
measured (an empty CorrelationID always passes). -/
theorem C7_correlation_id_byte_bounded (a : Alert) (hne : a.CorrelationID ≠ "") :
    (ValidateCorrelationID a = none ↔ byteLen a.CorrelationID ≤ MaxCorrelationIDLength) ∧
    (byteLen a.CorrelationID > MaxCorrelationIDLength →
      ValidateCorrelationID a
        = some "correlationId is too long, expected length <=500") := by
  unfold ValidateCorrelationID
  rw [if_neg hne]
  constructor
  · constructor
    · intro h
      by_cases hl : byteLen a.CorrelationID > MaxCorrelationIDLength
      · rw [if_pos hl] at h
        exact absurd h (by simp)
      · omega
    · intro h
      rw [if_neg (by omega)]
  · intro h
    rw [if_pos h]
    rfl

theorem C7_correlation_id_byte_bounded_witness :
    ValidateCorrelationID { baseAlert with CorrelationID := "job-42" } = none ∧
    ValidateCorrelationID { baseAlert with CorrelationID := ⟨List.replicate 501 'x'⟩ }
      = some "correlationId is too long, expected length <=500" :=
  ⟨(C7_correlation_id_byte_bounded { baseAlert with CorrelationID := "job-42" }
      (by decide)).1.2 (by decide),
   (C7_correlation_id_byte_bounded { baseAlert with CorrelationID := ⟨List.replicate 501 'x'⟩ }
      (by decide)).2 (by decide)⟩

/-- Outcome of a Go expression that can panic at runtime. -/
inductive GoResult (α : Type) where
  | ok : α → GoResult α
  | crash : String → GoResult α
deriving DecidableEq, Repr

/-- Dynamic type name of a stored `any` value, as printed in Go's interface
conversion panics. -/
def goTypeName : GoValue → String
  | GoValue.null => "<nil>"
  | GoValue.str _ => "string"
  | GoValue.int _ => "int"
  | GoValue.bool _ => "bool"

/-- Panic message of a failed Go type assertion `v.(want)`. -/
def typeAssertErr (v : GoValue) (want : String) : String :=
  "interface conversion: interface \x7b\x7d is " ++ goTypeName v ++ ", not " ++ want

/-- Go map lookup on an association list. -/
def lookupKV {β : Type} (k : String) : List (String × β) → Option β
  | [] => none
  | (k', v) :: rest => if k' = k then some v else lookupKV k rest

/-- Go `WebhookCallback`; nil-able maps are `Option` association lists, and
the receiver itself is passed as `Option WebhookCallback` to model calls on a
nil pointer. -/
structure WebhookCallback where
  ID : String
  UserID : String
  UserRealName : String
  ChannelID : String
  MessageID : String
  Timestamp : Int
  Input : Option (List (String × String))
  CheckboxInput : Option (List (String × List String))
  Payload : Option (List (String × GoValue))
deriving DecidableEq, Repr

/-- Go `WebhookCallback.GetPayloadValue`. -/
def GetPayloadValue (w : Option WebhookCallback) (key : String) : GoValue :=
  match w with
  | none => GoValue.str ""
  | some cb =>
    match cb.Payload with
    | none => GoValue.str ""
    | some p =>
      match lookupKV key p with
      | some v => v
      | none => GoValue.null

/-- Go `WebhookCallback.GetPayloadString`; the unchecked type assertion
`s.(string)` panics when the stored value is not a string. -/
def GetPayloadString (w : Option WebhookCallback) (key : String) : GoResult String :=
  match w with
  | none => GoResult.ok ""
  | some cb =>
    match cb.Payload with
    | none => GoResult.ok ""
    | some p =>
      match lookupKV key p with
      | some (GoValue.str s) => GoResult.ok s
      | some v => GoResult.crash (typeAssertErr v "string")
      | none => GoResult.ok ""

/-- Go `WebhookCallback.GetPayloadInt`; `s.(int)` panics on non-int values. -/
def GetPayloadInt (w : Option WebhookCallback) (key : String) (defaultValue : Int) :
    GoResult Int :=
  match w with
  | none => GoResult.ok defaultValue
  | some cb =>
    match cb.Payload with
    | none => GoResult.ok defaultValue
    | some p =>
      match lookupKV key p with
      | some (GoValue.int n) => GoResult.ok n
      | some v => GoResult.crash (typeAssertErr v "int")
      | none => GoResult.ok defaultValue

/-- Go `WebhookCallback.GetPayloadBool`; `b.(bool)` panics on non-bool
values. -/
def GetPayloadBool (w : Option WebhookCallback) (key : String) (defaultValue : Bool) :
    GoResult Bool :=
  match w with
  | none => GoResult.ok defaultValue
  | some cb =>
    match cb.Payload with
    | none => GoResult.ok defaultValue
    | some p =>
      match lookupKV key p with
      | some (GoValue.bool b) => GoResult.ok b
      | some v => GoResult.crash (typeAssertErr v "bool")
      | none => GoResult.ok defaultValue

/-- Go `WebhookCallback.GetInputValue` (total). -/
def GetInputValue (w : Option WebhookCallback) (key : String) : String :=
  match w with
  | none => ""
  | some cb =>
    match cb.Input with
    | none => ""
    | some m =>
      match lookupKV key m with
      | some s => s
      | none => ""

/-- Go `WebhookCallback.GetCheckboxInputSelectedValues` (total). -/
def GetCheckboxInputSelectedValues (w : Option WebhookCallback) (key : String) : List String :=
  match w with
  | none => []
  | some cb =>
    match cb.CheckboxInput with
    | none => []
    | some m =>
      match lookupKV key m with
      | some v => v
      | none => []

/-- Empty callback value used for concrete accessor evaluations. -/
def emptyCallback : WebhookCallback := ⟨"", "", "", "", "", 0, none, none, none⟩

/-- Callback whose payload stores an int under key `k`. -/
def intPayloadCallback : WebhookCallback :=
  { emptyCallback with Payload := some [("k", GoValue.int 123)] }

/-- C6: the claim as stated is false: when the stored value has the wrong
dynamic type, the typed accessors do not return the default; the unchecked Go
type assertion panics. -/
theorem C6_counterexample_wrong_type_panics :
    GetPayloadString (some intPayloadCallback) "k"
      = GoResult.crash "interface conversion: interface \x7b\x7d is int, not string" ∧
    GetPayloadString (some intPayloadCallback) "k" ≠ GoResult.ok "" := by
  constructor
  · decide
  · decide

/-- C6 (amended): every accessor is nil-safe for a nil receiver, nil inner
maps and absent keys, returning the typed default (and `GetPayloadValue`,
`GetInputValue`, `GetCheckboxInputSelectedValues` are total for every input);
but when a present key stores a value of the wrong dynamic type, the typed
accessors `GetPayloadString`/`GetPayloadInt`/`GetPayloadBool` panic with an
interface conversion error instead of returning the default. -/
theorem C6_accessor_nil_safety (key : String) (di : Int) (db : Bool) (cb : WebhookCallback) :
    (GetPayloadValue none key = GoValue.str "" ∧
     GetPayloadString none key = GoResult.ok "" ∧
     GetPayloadInt none key di = GoResult.ok di ∧
     GetPayloadBool none key db = GoResult.ok db ∧
     GetInputValue none key = "" ∧
     GetCheckboxInputSelectedValues none key = []) ∧
    (cb.Payload = none →
      GetPayloadString (some cb) key = GoResult.ok "" ∧
      GetPayloadInt (some cb) key di = GoResult.ok di ∧
      GetPayloadBool (some cb) key db = GoResult.ok db) ∧
    (∀ p, cb.Payload = some p → lookupKV key p = none →
      GetPayloadString (some cb) key = GoResult.ok "" ∧
      GetPayloadInt (some cb) key di = GoResult.ok di ∧
      GetPayloadBool (some cb) key db = GoResult.ok db ∧
      GetPayloadValue (some cb) key = GoValue.null) ∧
    (cb.Input = none → GetInputValue (some cb) key = "") ∧
    (cb.CheckboxInput = none → GetCheckboxInputSelectedValues (some cb) key = []) ∧
    (∀ p n, cb.Payload = some p → lookupKV key p = some (GoValue.int n) →
      GetPayloadString (some cb) key = GoResult.crash (typeAssertErr (GoValue.int n) "string")) ∧
    (∀ p s, cb.Payload = some p → lookupKV key p = some (GoValue.str s) →
      GetPayloadInt (some cb) key di = GoResult.crash (typeAssertErr (GoValue.str s) "int") ∧
      GetPayloadBool (some cb) key db = GoResult.crash (typeAssertErr (GoValue.str s) "bool")) := by
  refine ⟨⟨rfl, rfl, rfl, rfl, rfl, rfl⟩, ?_, ?_, ?_, ?_, ?_, ?_⟩
  · intro h
    simp [GetPayloadString, GetPayloadInt, GetPayloadBool, h]
  · intro p hp hnone
    simp [GetPayloadString, GetPayloadInt, GetPayloadBool, GetPayloadValue, hp, hnone]
  · intro h
    simp [GetInputValue, h]
  · intro h
    simp [GetCheckboxInputSelectedValues, h]
  · intro p n hp hk
    simp [GetPayloadString, hp, hk]
  · intro p str hp hk
    simp [GetPayloadInt, GetPayloadBool, hp, hk]

theorem C6_accessor_nil_safety_witness :
    GetPayloadInt none "k" 42 = GoResult.ok 42 ∧
    GetPayloadInt (some emptyCallback) "k" 42 = GoResult.ok 42 ∧
    GetPayloadInt (some intPayloadCallback) "missing" 42 = GoResult.ok 42 ∧
    GetPayloadBool (some { emptyCallback with
        Payload := some [("k", GoValue.str "x")] }) "k" false
      = GoResult.crash "interface conversion: interface \x7b\x7d is string, not bool" := by
  have h := C6_accessor_nil_safety "k" 42 false intPayloadCallback
  refine ⟨h.1.2.2.1, ?_, ?_, ?_⟩
  · exact (C6_accessor_nil_safety "k" 42 false emptyCallback).2.1 rfl |>.2.1
  · exact ((C6_accessor_nil_safety "missing" 42 false intPayloadCallback).2.2.1
      [("k", GoValue.int 123)] rfl (by decide)).2.1
  · exact ((C6_accessor_nil_safety "k" 42 false { emptyCallback with
        Payload := some [("k", GoValue.str "x")] }).2.2.2.2.2.2
      [("k", GoValue.str "x")] "x" rfl (by decide)).2

/-- Go `net/url` control-byte check (`stringContainsCTLByte`). -/
def containsCTLByte (bs : List Nat) : Bool := bs.any (fun b => b < 0x20 || b == 0x7F)

/-- ASCII letter. -/
def isAlphaByte (b : Nat) : Bool := (65 ≤ b && b ≤ 90) || (97 ≤ b && b ≤ 122)

/-- ASCII digit. -/
def isDigitByte (b : Nat) : Bool := 48 ≤ b && b ≤ 57

/-- ASCII hex digit. -/
def isHexByte (b : Nat) : Bool :=
  isDigitByte b || (97 ≤ b && b ≤ 102) || (65 ≤ b && b ≤ 70)

/-- Value of a hex digit byte. -/
def unhexByte (b : Nat) : Nat :=
  if isDigitByte b then b - 48
  else if 97 ≤ b && b ≤ 102 then b - 97 + 10
  else b - 65 + 10

/-- Lowercasing of an ASCII byte, as `strings.ToLower` acts on a scheme. -/
def byteLower (b : Nat) : Nat := if 65 ≤ b && b ≤ 90 then b + 32 else b

/-- Go `getScheme`: accumulate alphanumeric/`+-.` bytes up to a colon; a
leading non-letter or any other byte means no scheme. -/
def getSchemeAux (orig : List Nat) (acc : List Nat) : List Nat → Except String (List Nat × List Nat)
  | [] => Except.ok ([], orig)
  | b :: rest =>
    if isAlphaByte b then getSchemeAux orig (acc ++ [b]) rest
    else if isDigitByte b || b == 43 || b == 45 || b == 46 then
      if acc.isEmpty then Except.ok ([], orig) else getSchemeAux orig (acc ++ [b]) rest
    else if b == 58 then
      if acc.isEmpty then Except.error "missing protocol scheme"
      else Except.ok (acc, rest)
    else Except.ok ([], orig)

/-- Go `getScheme`. -/
def getScheme (raw : List Nat) : Except String (List Nat × List Nat) := getSchemeAux raw [] raw

/-- Go `strings.Cut` at the first occurrence of byte `x` (before, after). -/
def cutByte (x : Nat) : List Nat → (List Nat × List Nat)
  | [] => ([], [])
  | b :: rest =>
    if b == x then ([], rest)
    else
      let p := cutByte x rest
      (b :: p.1, p.2)

/-- Split before the first occurrence of byte `x`, keeping it in the tail
(`strings.Index` + slicing, as the authority/path split does). -/
def spanUntil (x : Nat) : List Nat → (List Nat × List Nat)
  | [] => ([], [])
  | b :: rest =>
    if b == x then ([], b :: rest)
    else
      let p := spanUntil x rest
      (b :: p.1, p.2)

/-- Split at the last occurrence of byte `x` (`strings.LastIndex`): parts
strictly before and strictly after it, or `none` when absent. -/
def splitAtLast (x : Nat) (l : List Nat) : Option (List Nat × List Nat) :=
  if l.contains x then
    let p := cutByte x l.reverse
    some (p.2.reverse, p.1.reverse)
  else none

/-- Index of the first occurrence of `pat` (`strings.Index`). -/
def indexOfSub (pat : List Nat) : List Nat → Option Nat
  | [] => if pat.isEmpty then some 0 else none
  | b :: rest =>
    if pat.isPrefixOf (b :: rest) then some 0
    else
      match indexOfSub pat rest with
      | some i => some (i + 1)
      | none => none

/-- Escape-checking modes of Go `unescape` that the URL validator can reach. -/
inductive EncMode where
  | host : EncMode
  | zone : EncMode
  | path : EncMode
deriving DecidableEq

/-- Go `shouldEscape(c, encodeHost)`: bytes that may appear unescaped in a
host component. -/
def hostByteOk (b : Nat) : Bool :=
  isAlphaByte b || isDigitByte b ||
  b == 33 || b == 36 || b == 38 || b == 39 || b == 40 || b == 41 || b == 42 ||
  b == 43 || b == 44 || b == 59 || b == 61 || b == 58 || b == 91 || b == 93 ||
  b == 60 || b == 62 || b == 34 ||
  b == 45 || b == 95 || b == 46 || b == 126

/-- Error side of Go `unescape` in the given mode: malformed percent escapes
always fail; host mode also rejects escapes below `%80` other than `%25`, and
host/zone modes reject ASCII bytes that require escaping. -/
def unescapeCheck (mode : EncMode) : List Nat → Except String Unit
  | [] => Except.ok ()
  | b :: rest =>
    if b == 37 then
      match rest with
      | h1 :: h2 :: rest2 =>
        if !(isHexByte h1 && isHexByte h2) then Except.error "invalid URL escape"
        else if mode = EncMode.host ∧ unhexByte h1 < 8 ∧ ¬(h1 = 50 ∧ h2 = 53) then
          Except.error "invalid URL escape"
        else unescapeCheck mode rest2
      | _ => Except.error "invalid URL escape"
    else
      if (mode = EncMode.host ∨ mode = EncMode.zone) ∧ b < 0x80 ∧ hostByteOk b = false then
        Except.error "invalid character in host name"
      else unescapeCheck mode rest

/-- Go `validOptionalPort`. -/
def validOptionalPort (p : List Nat) : Bool :=
  match p with
  | [] => true
  | b :: rest => b == 58 && rest.all isDigitByte

/-- Go `validUserinfo` (ASCII-only acceptance; any multi-byte rune fails). -/
def validUserinfo (l : List Nat) : Bool :=
  l.all (fun b => isAlphaByte b || isDigitByte b ||
    b == 45 || b == 46 || b == 95 || b == 58 || b == 126 || b == 33 || b == 36 ||
    b == 38 || b == 39 || b == 40 || b == 41 || b == 42 || b == 43 || b == 44 ||
    b == 59 || b == 61 || b == 37 || b == 64)

/-- Go `parseHost`: bracketed IPv6 forms with optional zone and port, or a
plain host with optional port, then the host-mode unescape check. -/
def parseHost (h : List Nat) : Except String Unit :=
  if h.head? = some 91 then
    match splitAtLast 93 h with
    | none => Except.error "missing ']' in host"
    | some (inside, colonPort) =>
      if !validOptionalPort colonPort then Except.error "invalid port after host"
      else
        match indexOfSub [37, 50, 53] inside with
        | some z =>
          match unescapeCheck EncMode.host (inside.take z) with
          | Except.error e => Except.error e
          | Except.ok _ =>
            match unescapeCheck EncMode.zone (inside.drop z) with
            | Except.error e => Except.error e
            | Except.ok _ => unescapeCheck EncMode.host (93 :: colonPort)
        | none => unescapeCheck EncMode.host h
  else
    match splitAtLast 58 h with
    | some (_, after) =>
      if !after.all isDigitByte then Except.error "invalid port after host"
      else unescapeCheck EncMode.host h
    | none => unescapeCheck EncMode.host h

/-- Go `parseAuthority`: host after the last `@`, then userinfo validation. -/
def parseAuthority (a : List Nat) : Except String Unit :=
  match splitAtLast 64 a with
  | none => parseHost a
  | some (userinfo, hostPart) =>
    match parseHost hostPart with
    | Except.error e => Except.error e
    | Except.ok _ =>
      if !validUserinfo userinfo then Except.error "net/url: invalid userinfo"
      else if userinfo.contains 58 then
        match unescapeCheck EncMode.path (cutByte 58 userinfo).1 with
        | Except.error e => Except.error e
        | Except.ok _ => unescapeCheck EncMode.path (cutByte 58 userinfo).2
      else unescapeCheck EncMode.path userinfo

/-- Go `url.ParseRequestURI` on the byte content of the URL string, reduced
to the data the caller inspects: the (lowercased) scheme on success, or the
parse error. Follows `parse(rawURL, viaRequest=true)`. -/
def parseRequestURI (raw : List Nat) : Except String (List Nat) :=
  if containsCTLByte raw then Except.error "net/url: invalid control character in URL"
  else if raw.isEmpty then Except.error "empty url"
  else if raw = [42] then Except.ok []
  else
    match getScheme raw with
    | Except.error e => Except.error e
    | Except.ok (scheme0, rest0) =>
      let scheme := scheme0.map byteLower
      let rest :=
        if rest0.getLast? = some 63 ∧ !(rest0.dropLast.contains 63) then rest0.dropLast
        else (cutByte 63 rest0).1
      if rest.head? ≠ some 47 then
        if !scheme.isEmpty then Except.ok scheme
        else Except.error "invalid URI for request"
      else
        if !scheme.isEmpty ∧ rest.take 2 = [47, 47] then
          match parseAuthority (spanUntil 47 (rest.drop 2)).1 with
          | Except.error e => Except.error e
          | Except.ok _ =>
            match unescapeCheck EncMode.path (spanUntil 47 (rest.drop 2)).2 with
            | Except.error e => Except.error e
            | Except.ok _ => Except.ok scheme
        else
          match unescapeCheck EncMode.path rest with
          | Except.error e => Except.error e
          | Except.ok _ => Except.ok scheme

/-- Go `WebhookButtonStyleIsValid` (webhook_button_style.go). -/
def WebhookButtonStyleIsValid (s : String) : Bool := s = "primary" || s = "danger"

/-- Go `WebhookAccessLevelIsValid` (webhook_access_level.go). -/
def WebhookAccessLevelIsValid (s : String) : Bool :=
  s = "global_admins" || s = "channel_admins" || s = "channel_members"

/-- Go `WebhookDisplayModeIsValid` (webhook_display_mode.go). -/
def WebhookDisplayModeIsValid (s : String) : Bool :=
  s = "always" || s = "open_issue" || s = "resolved_issue"

/-- Go `len` of a possibly-nil map. -/
def payloadLen : Option (List (String × GoValue)) → Nat
  | none => 0
  | some l => l.length

/-- Inner loop of ValidateWebhooks over checkbox options (alert.go:777-799). -/
def checkOptionsLoop (wi ii : Nat) (seenVals : List String) (oi : Nat) :
    List (Option WebhookCheckboxOption) → Option String
  | [] => none
  | o? :: rest =>
    match o? with
    | none => some ("webhook[" ++ toString wi ++ "].checkboxInput[" ++ toString ii ++
        "].options[" ++ toString oi ++ "] is nil")
    | some o =>
      if o.Value = "" then
        some ("webhook[" ++ toString wi ++ "].checkboxInput[" ++ toString ii ++
          "].options[" ++ toString oi ++ "].value is required")
      else if byteLen o.Value > 100 then
        some ("webhook[" ++ toString wi ++ "].checkboxInput[" ++ toString ii ++
          "].options[" ++ toString oi ++ "].value is too long, expected <=100")
      else if seenVals.contains o.Value then
        some ("webhook[" ++ toString wi ++ "].checkboxInput[" ++ toString ii ++
          "].options[" ++ toString oi ++ "].value must be unique")
      else if byteLen o.Text > 50 then
        some ("webhook[" ++ toString wi ++ "].checkboxInput[" ++ toString ii ++
          "].options[" ++ toString oi ++ "].text is too long, expected <=50")
      else checkOptionsLoop wi ii (o.Value :: seenVals) (oi + 1) rest

/-- Loop of ValidateWebhooks over plain-text inputs (alert.go:696-746),
threading the input-ID set shared with checkbox inputs. -/
def checkPlainLoop (wi : Nat) (seen : List String) (ii : Nat) :
    List (Option WebhookPlainTextInput) → Except String (List String)
  | [] => Except.ok seen
  | i? :: rest =>
    match i? with
    | none => Except.error ("webhook[" ++ toString wi ++ "].plainTextInput[" ++ toString ii ++
        "] is nil")
    | some input =>
      if input.ID = "" then
        Except.error ("webhook[" ++ toString wi ++ "].plainTextInput[" ++ toString ii ++
          "].id is required")
      else if seen.contains input.ID then
        Except.error ("webhook[" ++ toString wi ++ "].plainTextInput[" ++ toString ii ++
          "].id must be unique among all inputs")
      else if byteLen input.ID > 200 then
        Except.error ("webhook[" ++ toString wi ++ "].plainTextInput[" ++ toString ii ++
          "].id is too long, expected <=200")
      else if byteLen input.Description > 200 then
        Except.error ("webhook[" ++ toString wi ++ "].plainTextInput[" ++ toString ii ++
          "].description is too long, expected <=200")
      else if input.MinLength < 0 then
        Except.error ("webhook[" ++ toString wi ++ "].plainTextInput[" ++ toString ii ++
          "].minLength must be >=0")
      else if input.MinLength > 3000 then
        Except.error ("webhook[" ++ toString wi ++ "].plainTextInput[" ++ toString ii ++
          "].minLength must be <=3000")
      else if input.MaxLength < 0 then
        Except.error ("webhook[" ++ toString wi ++ "].plainTextInput[" ++ toString ii ++
          "].maxLength must be >=0")
      else if input.MaxLength > 3000 then
        Except.error ("webhook[" ++ toString wi ++ "].plainTextInput[" ++ toString ii ++
          "].maxLength must be <=3000")
      else if input.MaxLength < input.MinLength then
        Except.error ("webhook[" ++ toString wi ++ "].plainTextInput[" ++ toString ii ++
          "].maxLength cannot be smaller than minLength")
      else if (byteLen input.InitialValue : Int) > input.MaxLength then
        Except.error ("webhook[" ++ toString wi ++ "].plainTextInput[" ++ toString ii ++
          "].initialValue cannot be longer than maxLength")
      else if (byteLen input.InitialValue : Int) < input.MinLength then
        Except.error ("webhook[" ++ toString wi ++ "].plainTextInput[" ++ toString ii ++
          "].initialValue cannot be shorter than minLength")
      else checkPlainLoop wi (input.ID :: seen) (ii + 1) rest

/-- Loop of ValidateWebhooks over checkbox inputs (alert.go:748-800). -/
def checkCheckboxLoop (wi : Nat) (seen : List String) (ii : Nat) :
    List (Option WebhookCheckboxInput) → Option String
  | [] => none
  | i? :: rest =>
    match i? with
    | none => some ("webhook[" ++ toString wi ++ "].checkboxInput[" ++ toString ii ++
        "] is nil")
    | some input =>
      if input.ID = "" then
        some ("webhook[" ++ toString wi ++ "].checkboxInput[" ++ toString ii ++
          "].id is required")
      else if seen.contains input.ID then
        some ("webhook[" ++ toString wi ++ "].checkboxInput[" ++ toString ii ++
          "].id must be unique among all inputs")
      else if byteLen input.ID > 200 then
        some ("webhook[" ++ toString wi ++ "].checkboxInput[" ++ toString ii ++
          "].id is too long, expected <=200")
      else if byteLen input.Label > 200 then
        some ("webhook[" ++ toString wi ++ "].checkboxInput[" ++ toString ii ++
          "].label is too long, expected <=200")
      else if input.Options.length > 5 then
        some ("webhook[" ++ toString wi ++ "].checkboxInput[" ++ toString ii ++
          "].options item count is too large, expected <=5")
      else
        match checkOptionsLoop wi ii [] 0 input.Options with
        | some e => some e
        | none => checkCheckboxLoop wi (input.ID :: seen) (ii + 1) rest

/-- Main loop of Go `Alert.ValidateWebhooks` (alert.go:622-801); enum error
messages list the valid values in declaration order (Go iterates a map, so
its order is unspecified). -/
def validateWebhooksLoop (seen : List String) (i : Nat) :
    List (Option Webhook) → Option String
  | [] => none
  | h? :: rest =>
    match h? with
    | none => some ("webhook[" ++ toString i ++ "] is nil")
    | some hook =>
      if hook.ID = "" then some ("webhook[" ++ toString i ++ "].id is required")
      else if byteLen hook.ID > 100 then
        some ("webhook[" ++ toString i ++ "].id is too long, expected length <=100")
      else if seen.contains hook.ID then
        some ("webhook[" ++ toString i ++ "].id must be unique")
      else if hook.URL = "" then some ("webhook[" ++ toString i ++ "].url is required")
      else if byteLen hook.URL > 1000 then
        some ("webhook[" ++ toString i ++ "].url is too long, expected length <=1000")
      else
        match parseRequestURI (utf8Bytes hook.URL) with
        | Except.error _ =>
          some ("webhook[" ++ toString i ++ "].url is not a valid absolute URL")
        | Except.ok scheme =>
          if scheme.isEmpty then
            some ("webhook[" ++ toString i ++ "].url is not a valid absolute URL")
          else if hook.ButtonText = "" then
            some ("webhook[" ++ toString i ++ "].buttonText is required")
          else if byteLen hook.ButtonText > 25 then
            some ("webhook[" ++ toString i ++ "].buttonText is too long, expected length <=25")
          else if byteLen hook.ConfirmationText > 1000 then
            some ("webhook[" ++ toString i ++
              "].confirmationText is too long, expected length <=1000")
          else if hook.ButtonStyle ≠ "" ∧ WebhookButtonStyleIsValid hook.ButtonStyle = false then
            some ("webhook[" ++ toString i ++ "].buttonStyle '" ++ hook.ButtonStyle ++
              "' is not valid, expected empty or one of [primary, danger]")
          else if hook.AccessLevel ≠ "" ∧ WebhookAccessLevelIsValid hook.AccessLevel = false then
            some ("webhook[" ++ toString i ++ "].accessLevel '" ++ hook.AccessLevel ++
              "' is not valid, expected empty or one of [global_admins, channel_admins, channel_members]")
          else if hook.DisplayMode ≠ "" ∧ WebhookDisplayModeIsValid hook.DisplayMode = false then
            some ("webhook[" ++ toString i ++ "].displayMode '" ++ hook.DisplayMode ++
              "' is not valid, expected empty or one of [always, open_issue, resolved_issue]")
          else if payloadLen hook.Payload > 50 then
            some ("webhook[" ++ toString i ++ "].payload item count is too large, expected <=50")
          else if hook.PlainTextInput.length > 10 then
            some ("webhook[" ++ toString i ++
              "].plainTextInput item count is too large, expected <=10")
          else if hook.CheckboxInput.length > 10 then
            some ("webhook[" ++ toString i ++
              "].checkboxInput item count is too large, expected <=10")
          else
            match checkPlainLoop i [] 0 hook.PlainTextInput with
            | Except.error e => some e
            | Except.ok inputIDs =>
              match checkCheckboxLoop i inputIDs 0 hook.CheckboxInput with
              | some e => some e
              | none => validateWebhooksLoop (hook.ID :: seen) (i + 1) rest

/-- Go `Alert.ValidateWebhooks` (alert.go:611-804); a nil Webhooks slice and
an empty one both validate trivially. -/
def ValidateWebhooks (a : Alert) : Option String :=
  if a.Webhooks.length > 5 then some "too many webhooks, expected <=5"
  else validateWebhooksLoop [] 0 a.Webhooks

/-- Alert with one otherwise-valid webhook whose URL is the argument. -/
def mkUrlAlert (u : String) : Alert :=
  { baseAlert with Webhooks := [some ⟨"hook-1", u, "", "Run", "", "", "", none, [], []⟩] }

/-- C5: evaluation of `ValidateWebhooks` at the claim's inputs. The
custom-handler token `my-handler:action` is indeed accepted (it parses with
scheme `my-handler`), but a URL containing a NUL byte is rejected with the
generic message `webhook[0].url is not a valid absolute URL`, which does not
contain "invalid characters": the shipped code has no pure-ASCII-token
branch and no "contains invalid characters" error, although the repository's
own test (alert_test.go: "Non-HTTP URL (custom handler) must be valid
ASCII") requires exactly that message. -/
theorem C5_webhook_url_validation :
    ValidateWebhooks (mkUrlAlert "my-handler:action") = none ∧
    ValidateWebhooks (mkUrlAlert "custom-handler\x00invalid")
      = some "webhook[0].url is not a valid absolute URL" ∧
    containsSub "webhook[0].url is not a valid absolute URL" "invalid characters" = false := by
  exact ⟨by decide, by decide, by decide⟩

/-- Character of the standard base64 alphabet for a 6-bit value. -/
def b64StdChar (n : Nat) : Char :=
  "ABCDEFGHIJKLMNOPQRSTUVWXYZabcdefghijklmnopqrstuvwxyz0123456789+/".data.getD n 'A'

/-- Go `base64.StdEncoding.EncodeToString` grouping. -/
def base64StdChunks : List Nat → List Char
  | [] => []
  | [b0] => [b64StdChar (b0 / 4), b64StdChar (b0 % 4 * 16), '=', '=']
  | [b0, b1] => [b64StdChar (b0 / 4), b64StdChar (b0 % 4 * 16 + b1 / 16),
      b64StdChar (b1 % 16 * 4), '=']
  | b0 :: b1 :: b2 :: rest =>
    b64StdChar (b0 / 4) :: b64StdChar (b0 % 4 * 16 + b1 / 16) ::
      b64StdChar (b1 % 16 * 4 + b2 / 64) :: b64StdChar (b2 % 64) :: base64StdChunks rest

/-- Go `base64.StdEncoding.EncodeToString`. -/
def base64Std (bs : List Nat) : String := ⟨base64StdChunks bs⟩

/-- Value of a standard base64 alphabet character. -/
def b64Val (c : Char) : Option Nat :=
  "ABCDEFGHIJKLMNOPQRSTUVWXYZabcdefghijklmnopqrstuvwxyz0123456789+/".data.indexOf? c

/-- Go `base64.StdEncoding.DecodeString` on the character list. -/
def base64StdDecode : List Char → Option (List Nat)
  | [] => some []
  | c0 :: c1 :: c2 :: c3 :: rest =>
    match b64Val c0, b64Val c1 with
    | some v0, some v1 =>
      if c2 = '=' ∧ c3 = '=' ∧ rest = [] then some [v0 * 4 + v1 / 16]
      else
        match b64Val c2 with
        | some v2 =>
          if c3 = '=' ∧ rest = [] then some [v0 * 4 + v1 / 16, v1 % 16 * 16 + v2 / 4]
          else
            match b64Val c3, base64StdDecode rest with
            | some v3, some bs =>
              some ((v0 * 4 + v1 / 16) :: (v1 % 16 * 16 + v2 / 4) :: (v2 % 4 * 64 + v3) :: bs)
            | _, _ => none
        | none => none
    | _, _ => none
  | _ => none

/-- JSON string escaping for the modelled serializer. -/
def jsonEscapeChar (c : Char) : List Char :=
  if c = '"' then ['\\', '"']
  else if c = '\\' then ['\\', '\\']
  else if c = '\n' then ['\\', 'n']
  else if c = '\t' then ['\\', 't']
  else if c = '\r' then ['\\', 'r']
  else [c]

/-- JSON string literal. -/
def jsonStr (s : String) : String := "\"" ++ ⟨s.data.flatMap jsonEscapeChar⟩ ++ "\""

/-- JSON rendering of a dynamic value. -/
def jsonValue : GoValue → String
  | GoValue.null => "null"
  | GoValue.str s => jsonStr s
  | GoValue.int n => toString n
  | GoValue.bool b => if b then "true" else "false"

/-- Modelled Go `json.Marshal` of a `map[string]any`: keys sorted, as the Go
encoder emits them. -/
def jsonObject (p : List (String × GoValue)) : String :=
  "\x7b" ++ String.intercalate ","
    ((List.insertionSort (fun a b : String × GoValue => a.1 ≤ b.1) p).map
      (fun kv => jsonStr kv.1 ++ ":" ++ jsonValue kv.2)) ++ "\x7d"

/-- Reserved payload key under which the encrypted payload is stored. -/
def encryptedDataKey : String := "__encrypted_data"

/-- Modelled from the spec: `Webhook.EncryptPayload(key)` is absent from the
provided sources (spec section 4.5 is its only description). Modelled to the
spec's words: a no-op on a nil or empty payload; JSON-serializes the payload
map; rejects serialized forms over 2048 bytes before any encryption;
otherwise encrypts the JSON bytes with `Encrypt` and stores the result
base64-encoded as the single entry under the reserved key
`__encrypted_data`. -/
def Webhook.EncryptPayload (g : GCMSim) (rnd : Nat → Nat) (key : List Nat) (w : Webhook) :
    Except String Webhook :=
  match w.Payload with
  | none => Except.ok w
  | some [] => Except.ok w
  | some p =>
    if byteLen (jsonObject p) > 2048 then Except.error "payload is too large"
    else
      match Encrypt g rnd key (utf8Bytes (jsonObject p)) with
      | Except.error e => Except.error e
      | Except.ok ct =>
        Except.ok { w with Payload := some [(encryptedDataKey, GoValue.str (base64Std ct))] }

/-- Modelled from the spec: `Webhook.DecryptPayload(key)` is absent from the
provided sources. Modelled to the spec's words: it reads (never mutates) the
webhook, returns `none` (nil payload, not an error) when the payload is nil,
empty, or the reserved `__encrypted_data` key is absent — letting plaintext
payload webhooks coexist — and otherwise base64-decodes and decrypts,
returning the serialized payload bytes (decoding the JSON back into a map is
outside the claims' scope). -/
def Webhook.DecryptPayload (g : GCMSim) (key : List Nat) (w : Webhook) :
    Except String (Option (List Nat)) :=
  match w.Payload with
  | none => Except.ok none
  | some [] => Except.ok none
  | some p =>
    match lookupKV encryptedDataKey p with
    | none => Except.ok none
    | some (GoValue.str b64) =>
      match base64StdDecode b64.data with
      | none => Except.error "illegal base64 data"
      | some ct =>
        match Decrypt g key ct with
        | Except.error e => Except.error e
        | Except.ok m => Except.ok (some m)
    | some _ => Except.error "encrypted payload is not a string"

/-- Webhook with its payload replaced by the single reserved entry. -/
def withEncryptedPayload (w : Webhook) (ct : List Nat) : Webhook :=
  { w with Payload := some [(encryptedDataKey, GoValue.str (base64Std ct))] }

/-- The blob `Encrypt` produces for a serialized payload. -/
def encPayloadBlob (g : GCMSim) (rnd : Nat → Nat) (key : List Nat)
    (p : List (String × GoValue)) : List Nat :=
  (List.range gcmNonceSize).map (fun i => rnd i % 256) ++
    gcmSeal g key ((List.range gcmNonceSize).map (fun i => rnd i % 256))
      (utf8Bytes (jsonObject p))

/-- C9: the payload operations behave as specified: no-ops on nil/empty
payloads, the size gate precedes encryption, the ciphertext is stored
base64-encoded as the single entry under `__encrypted_data`, and decryption
returns a nil payload (not an error) when the reserved key is absent;
DecryptPayload returns a value and never modifies the webhook. -/
theorem C9_payload_encryption (g : GCMSim) (rnd : Nat → Nat) (key : List Nat) (w : Webhook) :
    (w.Payload = none → Webhook.EncryptPayload g rnd key w = Except.ok w ∧
      Webhook.DecryptPayload g key w = Except.ok none) ∧
    (w.Payload = some [] → Webhook.EncryptPayload g rnd key w = Except.ok w ∧
      Webhook.DecryptPayload g key w = Except.ok none) ∧
    (∀ kv p, w.Payload = some (kv :: p) → byteLen (jsonObject (kv :: p)) > 2048 →
      Webhook.EncryptPayload g rnd key w = Except.error "payload is too large") ∧
    (∀ kv p, w.Payload = some (kv :: p) → byteLen (jsonObject (kv :: p)) ≤ 2048 →
      key.length = 32 →
      Webhook.EncryptPayload g rnd key w
        = Except.ok (withEncryptedPayload w (encPayloadBlob g rnd key (kv :: p)))) ∧
    (∀ kv p, w.Payload = some (kv :: p) → lookupKV encryptedDataKey (kv :: p) = none →
      Webhook.DecryptPayload g key w = Except.ok none) := by
  refine ⟨?_, ?_, ?_, ?_, ?_⟩
  · intro h
    rw [Webhook.EncryptPayload, Webhook.DecryptPayload, h]
    exact ⟨rfl, rfl⟩
  · intro h
    rw [Webhook.EncryptPayload, Webhook.DecryptPayload, h]
    exact ⟨rfl, rfl⟩
  · intro kv p h hbig
    rw [Webhook.EncryptPayload, h]
    simp only [if_pos hbig]
  · intro kv p h hsmall h32
    have hok : aesKeySizeOk key = true := by simp [aesKeySizeOk, h32]
    rw [Webhook.EncryptPayload, h]
    simp only [if_neg (by omega : ¬ byteLen (jsonObject (kv :: p)) > 2048)]
    rw [Encrypt, if_pos hok]
    rfl
  · intro kv p h habs
    rw [Webhook.DecryptPayload, h]
    simp [habs]

/-- Webhook with a nil payload. -/
def nilPayloadHook : Webhook := ⟨"id", "http://x", "", "b", "", "", "", none, [], []⟩

/-- Webhook with a small plaintext payload lacking the reserved key. -/
def smallPayloadHook : Webhook :=
  ⟨"id", "http://x", "", "b", "", "", "", some [("a", GoValue.int 1)], [], []⟩

/-- Webhook whose serialized payload exceeds 2048 bytes. -/
def bigPayloadHook : Webhook :=
  ⟨"id", "http://x", "", "b", "", "", "",
    some [("a", GoValue.str ⟨List.replicate 2100 'x'⟩)], [], []⟩

theorem utf8Bytes_append (s t : String) : utf8Bytes (s ++ t) = utf8Bytes s ++ utf8Bytes t := by
  simp [utf8Bytes, data_append]

theorem byteLen_append (s t : String) : byteLen (s ++ t) = byteLen s + byteLen t := by
  simp [byteLen, utf8Bytes_append]

theorem flatMap_enc_replicate_x (n : Nat) :
    ((List.replicate n 'x').flatMap (fun c => utf8EncChar c.toNat)).length = n := by
  induction n with
  | zero => rfl
  | succ n ih =>
    rw [List.replicate_succ, List.flatMap_cons, List.length_append, ih]
    have h1 : (utf8EncChar 'x'.toNat).length = 1 := rfl
    omega

theorem byteLen_replicate_x (n : Nat) : byteLen ⟨List.replicate n 'x'⟩ = n :=
  flatMap_enc_replicate_x n

theorem escape_replicate_x (n : Nat) :
    (List.replicate n 'x').flatMap jsonEscapeChar = List.replicate n 'x' := by
  induction n with
  | zero => rfl
  | succ n ih =>
    rw [List.replicate_succ, List.flatMap_cons, ih]
    rfl

theorem bigPayload_over_limit :
    byteLen (jsonObject [("a", GoValue.str ⟨List.replicate 2100 'x'⟩)]) > 2048 := by
  have hj : jsonObject [("a", GoValue.str ⟨List.replicate 2100 'x'⟩)]
      = "\x7b" ++ (jsonStr "a" ++ ":" ++ jsonStr ⟨List.replicate 2100 'x'⟩) ++ "\x7d" := rfl
  have hs : jsonStr ⟨List.replicate 2100 'x'⟩
      = "\"" ++ (⟨List.replicate 2100 'x'⟩ : String) ++ "\"" := by
    show "\"" ++ (⟨(List.replicate 2100 'x').flatMap jsonEscapeChar⟩ : String) ++ "\"" = _
    rw [escape_replicate_x]
  rw [hj, hs]
  simp only [byteLen_append]
  rw [byteLen_replicate_x]
  have h1 : byteLen "\x7b" = 1 := by decide
  have h2 : byteLen "\x7d" = 1 := by decide
  have h3 : byteLen (jsonStr "a") = 3 := by decide
  have h4 : byteLen ":" = 1 := by decide
  have h5 : byteLen "\"" = 1 := by decide
  omega

theorem C9_payload_encryption_witness :
    Webhook.EncryptPayload zeroGCM (fun _ => 0) (List.replicate 32 7) nilPayloadHook
      = Except.ok nilPayloadHook ∧
    Webhook.EncryptPayload zeroGCM (fun _ => 0) (List.replicate 32 7) bigPayloadHook
      = Except.error "payload is too large" ∧
    Webhook.DecryptPayload zeroGCM (List.replicate 32 7) smallPayloadHook = Except.ok none ∧
    (Webhook.EncryptPayload zeroGCM (fun _ => 0) (List.replicate 32 7) smallPayloadHook).isOk
      = true := by
  refine ⟨?_, ?_, ?_, ?_⟩
  · exact ((C9_payload_encryption zeroGCM (fun _ => 0) (List.replicate 32 7) nilPayloadHook).1
      rfl).1
  · exact (C9_payload_encryption zeroGCM (fun _ => 0) (List.replicate 32 7)
      bigPayloadHook).2.2.1 ("a", GoValue.str ⟨List.replicate 2100 'x'⟩) [] rfl
      bigPayload_over_limit
  · exact (C9_payload_encryption zeroGCM (fun _ => 0) (List.replicate 32 7)
      smallPayloadHook).2.2.2.2 ("a", GoValue.int 1) [] rfl (by decide)
  · rw [(C9_payload_encryption zeroGCM (fun _ => 0) (List.replicate 32 7)
      smallPayloadHook).2.2.2.1 ("a", GoValue.int 1) [] rfl (by decide) (by decide)]
    rfl

end SM
